import Mathlib

/-!
Verification development for the culebra scripting language
(`src/language/culebra.h`): a tree-walking evaluator over a PEG-derived
AST, with tagged runtime values, a chained lexical environment, and
heap-shared objects and arrays.

The shallow embedding below follows the C++ source function by function.
The PEG engine itself is an external dependency; what we embed is the AST
shape it delivers to `Eval::eval` (after the engine's single-child node
hoisting, with `PARAMETERS`, `ARGUMENTS` and `OBJECT` kept) together with
the whole evaluator, the value operations, and the environment chain.

Modelling conventions:
 * machine `long` becomes `Int` (overflow is unchecked in the source);
 * `std::shared_ptr` heap sharing becomes indices into an explicit `Store`;
 * `std::map` becomes a key-sorted association list (`emplace` inserts in
   key order and is a no-op on a present key, exactly as `std::map::emplace`);
 * C++ exceptions become the `.thrown msg` outcome; recursion that the C++
   performs without a bound is driven by fuel, `.stuck` meaning the fuel ran
   out or an internally-unreachable state was hit (including the undefined
   behaviour of integer division by zero);
 * `puts` writing to stdout is not modelled (the rendered text is computed
   and discarded).
-/

namespace Culebra

/-- AST node of a `PARAMETER`: the raw `MUTABLE` token ("mut" or "") and the
identifier token, as in `eval_function` which reads
`node->nodes[0]->token == "mut"` and `node->nodes[1]->token`. -/
structure RawParam where
  mutTok : String
  name : String
deriving Repr, DecidableEq

/-- The AST delivered to `Eval::eval`, one constructor per dispatch tag.
`callAst` keeps the node's `line`/`column` (used for `__LINE__`/`__COLUMN__`)
and separates the head (`nodes[0]`) from the suffix nodes.  `argsAst`,
`indexAst` and `dotAst` are the suffix nodes recognised through
`original_tag` in `eval_call` (`INDEX` and `DOT` are hoisted, so the model
keeps just the inner expression resp. the identifier token).  `tokenAst` is
the token-leaf fallback at the end of `Eval::eval` (used for `STRING`
literals and interpolated-string chunks). -/
inductive Ast where
  | statements (nodes : List Ast)
  | whileAst (cond : Ast) (body : Ast)
  | ifAst (nodes : List Ast)
  | funcAst (params : List RawParam) (body : Ast)
  | callAst (line : Nat) (column : Nat) (head : Ast) (suffixes : List Ast)
  | argsAst (args : List Ast)
  | indexAst (e : Ast)
  | dotAst (name : String)
  | blockAst (inner : Ast)
  | assignAst (mutTok : String) (name : String) (expr : Ast)
  | orAst (nodes : List Ast)
  | andAst (nodes : List Ast)
  | condAst (lhs : Ast) (opTok : String) (rhs : Ast)
  | plusAst (operand : Ast)
  | minusAst (operand : Ast)
  | notAst (operand : Ast)
  | binAst (first : Ast) (rest : List (String × Ast))
  | identAst (name : String)
  | objAst (props : List (String × Ast))
  | arrAst (elems : List Ast)
  | undefAst
  | boolAst (tok : String)
  | numAst (tok : String)
  | interpAst (nodes : List Ast)
  | tokenAst (tok : String)
deriving Repr

/-- `FunctionValue::Parameter`: a name and a mutability flag. -/
structure Param where
  name : String
  mutFlag : Bool
deriving DecidableEq

/-- The built-in native function bodies: the two prelude bindings from
`setup_built_in_functions` and the `builtins()` properties of
`ObjectValue` / `ArrayValue`. -/
inductive Native where
  | puts
  | assert
  | objSize
  | arrSize
  | arrPush
deriving Repr, DecidableEq

mutual
/-- Runtime `Value`: the tagged union of the seven kinds.  `Object` and
`Array` payloads are `shared_ptr`s in the source; here they are indices
into the `Store`.  A `Function` carries its parameter list and body. -/
inductive Value where
  | undefined
  | bool (b : Bool)
  | long (n : Int)
  | str (s : String)
  | object (id : Nat)
  | array (id : Nat)
  | func (params : List Param) (body : FnBody)

/-- The `eval` closure of a `FunctionValue`:
 * `closure body defEnv` is the lambda built in `eval_function`, which on
   call appends the captured defining environment under the call frame and
   evaluates the body;
 * `native` is a C++ lambda from the prelude or the builtin properties;
 * `bound receiver inner` is the wrapper built in the `DOT` branch of
   `eval_call`, which initialises `this` to the receiver and then runs the
   original closure. -/
inductive FnBody where
  | closure (body : Ast) (defEnv : Nat)
  | native (w : Native)
  | bound (receiver : Value) (inner : FnBody)
end

/-- `Environment::Symbol`: a value with its mutability flag. -/
structure Sym where
  val : Value
  mutFlag : Bool

/-- One `Environment` frame: the symbol dictionary and the outer link.
The dictionary is a `std::map` in the source; since only lookup and
per-name update are ever performed on it, a plain association list with
unique keys is an adequate model. -/
structure Frame where
  dic : List (String × Sym)
  outer : Option Nat

/-- The heap: all environment frames, all object property maps (key-sorted,
as `std::map` iterates them), and all array element vectors.  `ArrayValue`
also inherits an own-property map from `ObjectValue`, but no code path ever
inserts into it, so arrays are modelled by their element vector alone. -/
structure Store where
  envs : List Frame
  objs : List (List (String × Value))
  arrs : List (List Value)

/-- Outcome of running a piece of the interpreter: a result, a thrown C++
exception carrying its message, or `stuck` (fuel ran out, or an
internally-unreachable / undefined-behaviour state was hit). -/
inductive RunRes (α : Type) where
  | ok (a : α)
  | thrown (msg : String)
  | stuck

/-- `Value::to_bool`. -/
def Value.to_bool : Value → Except String Bool
  | .bool b => .ok b
  | .long n => .ok (n != 0)
  | _ => .error "type error."

/-- `Value::to_long`. -/
def Value.to_long : Value → Except String Int
  | .bool b => .ok (if b then 1 else 0)
  | .long n => .ok n
  | _ => .error "type error."

/-- `Value::to_string`. -/
def Value.to_string : Value → Except String String
  | .str s => .ok s
  | _ => .error "type error."

/-- `Value::to_function` (a `FunctionValue` is its parameter list and body). -/
def Value.to_function : Value → Except String (List Param × FnBody)
  | .func ps fb => .ok (ps, fb)
  | _ => .error "type error."

/-- `Value::to_object`, reduced to the shared handle (store index). -/
def Value.to_object : Value → Except String Nat
  | .object id => .ok id
  | _ => .error "type error."

/-- `Value::to_array`, reduced to the shared handle (store index). -/
def Value.to_array : Value → Except String Nat
  | .array id => .ok id
  | _ => .error "type error."

/-- `rhs.type == Undefined`, the test in the `Undefined` arm of
`Value::operator==`. -/
def isUndefined : Value → Bool
  | .undefined => true
  | _ => false

/-- C++ `bool` comparison `a <= b` (false < true). -/
def boolLe (a b : Bool) : Bool := !a || b

/-- C++ `bool` comparison `a < b`. -/
def boolLt (a b : Bool) : Bool := !a && b

/-- C++ `bool` comparison `a >= b`. -/
def boolGe (a b : Bool) : Bool := a || !b

/-- C++ `bool` comparison `a > b`. -/
def boolGt (a b : Bool) : Bool := a && !b

/-- Lexicographic comparison of character lists, mirroring the
`std::string` relational operators (characters compared by scalar
value). -/
def charListLt : List Char → List Char → Bool
  | [], [] => false
  | [], _ :: _ => true
  | _ :: _, [] => false
  | a :: as, b :: bs =>
    if a < b then true
    else if b < a then false
    else charListLt as bs

/-- `std::string` `operator<` (lexicographic). -/
def strLtB (a b : String) : Bool := charListLt a.data b.data

/-- `Value::operator==`: dispatch on the left operand's kind; scalar kinds
coerce the right operand (`to_bool`/`to_long`/`to_string` throw a type
error on a non-coercible operand); `Object`/`Array`/`Function` fall into
the `default:` branch which throws `invalid internal condition.`. -/
def valueEq (lhs rhs : Value) : Except String Bool :=
  match lhs with
  | .undefined => .ok (isUndefined rhs)
  | .bool b => (rhs.to_bool).map (fun rb => b == rb)
  | .long n => (rhs.to_long).map (fun rn => n == rn)
  | .str t => (rhs.to_string).map (fun rt => t == rt)
  | _ => .error "invalid internal condition."

/-- `Value::operator!=` — `!operator==`, exceptions propagating. -/
def valueNe (lhs rhs : Value) : Except String Bool :=
  (valueEq lhs rhs).map (fun b => !b)

/-- `Value::operator<=` (`Undefined` always compares false). -/
def valueLe (lhs rhs : Value) : Except String Bool :=
  match lhs with
  | .undefined => .ok false
  | .bool b => (rhs.to_bool).map (fun rb => boolLe b rb)
  | .long n => (rhs.to_long).map (fun rn => decide (n ≤ rn))
  | .str t => (rhs.to_string).map (fun rt => !(strLtB rt t))
  | _ => .error "invalid internal condition."

/-- `Value::operator<`. -/
def valueLt (lhs rhs : Value) : Except String Bool :=
  match lhs with
  | .undefined => .ok false
  | .bool b => (rhs.to_bool).map (fun rb => boolLt b rb)
  | .long n => (rhs.to_long).map (fun rn => decide (n < rn))
  | .str t => (rhs.to_string).map (fun rt => strLtB t rt)
  | _ => .error "invalid internal condition."

/-- `Value::operator>=`. -/
def valueGe (lhs rhs : Value) : Except String Bool :=
  match lhs with
  | .undefined => .ok false
  | .bool b => (rhs.to_bool).map (fun rb => boolGe b rb)
  | .long n => (rhs.to_long).map (fun rn => decide (rn ≤ n))
  | .str t => (rhs.to_string).map (fun rt => !(strLtB t rt))
  | _ => .error "invalid internal condition."

/-- `Value::operator>`. -/
def valueGt (lhs rhs : Value) : Except String Bool :=
  match lhs with
  | .undefined => .ok false
  | .bool b => (rhs.to_bool).map (fun rb => boolGt b rb)
  | .long n => (rhs.to_long).map (fun rn => decide (rn < n))
  | .str t => (rhs.to_string).map (fun rt => strLtB rt t)
  | _ => .error "invalid internal condition."

/-- The operator dispatch of `Eval::eval_condition` (the operator token
evaluates to a `String` value and is matched in source order, a fallthrough
hitting `invalid internal condition.`). -/
def condCompare (ope : String) (lhs rhs : Value) : Except String Bool :=
  if ope == "==" then valueEq lhs rhs
  else if ope == "!=" then valueNe lhs rhs
  else if ope == "<=" then valueLe lhs rhs
  else if ope == "<" then valueLt lhs rhs
  else if ope == ">=" then valueGe lhs rhs
  else if ope == ">" then valueGt lhs rhs
  else .error "invalid internal condition."

/-- Decimal-digit accumulator: the value `stol` computes on a `[0-9]+`
token. -/
def stolDigits : List Char → Nat → Nat
  | [], acc => acc
  | c :: rest, acc => stolDigits rest (acc * 10 + (c.toNat - 48))

/-- `stol(ast.token)` as used by `eval_number` (the grammar guarantees the
token is `[0-9]+`). -/
def stol (tok : String) : Int := (stolDigits tok.data 0 : Int)

/-- `std::map::emplace` on a key-sorted association list: insert in key
order, and leave the map unchanged when the key is already present. -/
def emplace : List (String × Value) → String → Value → List (String × Value)
  | [], n, v => [(n, v)]
  | (k, w) :: rest, n, v =>
    if strLtB n k then (n, v) :: (k, w) :: rest
    else if strLtB k n then (k, w) :: emplace rest n v
    else (k, w) :: rest

/-- Replace or append a symbol — `dic_[s] = Symbol{val, mut}` in
`Environment::initialize` (the map's internal ordering is never observed,
so replace-or-append is an adequate model). -/
def dicSet : List (String × Sym) → String → Sym → List (String × Sym)
  | [], n, sym => [(n, sym)]
  | (k, s0) :: rest, n, sym =>
    if n == k then (n, sym) :: rest else (k, s0) :: dicSet rest n sym

/-- Update the value of an existing symbol keeping its mutability —
`sym.val = val` in `Environment::assign`. -/
def dicSetVal : List (String × Sym) → String → Value → List (String × Sym)
  | [], _, _ => []
  | (k, s0) :: rest, n, v =>
    if n == k then (k, ⟨v, s0.mutFlag⟩) :: rest else (k, s0) :: dicSetVal rest n v

/-- Replace the frame stored at index `id`. -/
def storeSetFrame (s : Store) (id : Nat) (fr : Frame) : Store :=
  { s with envs := s.envs.set id fr }

/-- Fuel that certainly exceeds the length of any acyclic outer chain in
`s` (the chains the evaluator builds always point from newer frames to
older ones, hence are acyclic). -/
def chainFuel (s : Store) : Nat := s.envs.length + 1

/-- `Environment::has`: the name is in this frame's dictionary, or the
outer chain has it (`none` = fuel ran out / dangling frame index, which the
evaluator never produces). -/
def envHas : Nat → Store → Nat → String → Option Bool
  | 0, _, _, _ => none
  | f+1, s, id, name =>
    match s.envs.get? id with
    | none => none
    | some fr =>
      if (fr.dic.lookup name).isSome then some true
      else
        match fr.outer with
        | none => some false
        | some oid => envHas f s oid name

/-- `Environment::get`: innermost binding's value, else walk the outer
chain, else throw `undefined variable 'name'...`. -/
def envGet : Nat → Store → Nat → String → RunRes Value
  | 0, _, _, _ => .stuck
  | f+1, s, id, name =>
    match s.envs.get? id with
    | none => .stuck
    | some fr =>
      match fr.dic.lookup name with
      | some sym => .ok sym.val
      | none =>
        match fr.outer with
        | some oid => envGet f s oid name
        | none => .thrown ("undefined variable \x27" ++ name ++ "\x27...")

/-- `Environment::assign`: if the name is in this frame, reject when the
binding is immutable, else update in place; otherwise recurse into an
outer frame that `has` the name; the final fallthrough throws the
`invalid internal condition.` logic error. -/
def envAssign : Nat → Store → Nat → String → Value → RunRes Store
  | 0, _, _, _, _ => .stuck
  | f+1, s, id, name, v =>
    match s.envs.get? id with
    | none => .stuck
    | some fr =>
      match fr.dic.lookup name with
      | some sym =>
        if sym.mutFlag then
          .ok (storeSetFrame s id { fr with dic := dicSetVal fr.dic name v })
        else
          .thrown ("immutable variable \x27" ++ name ++ "\x27...")
      | none =>
        match fr.outer with
        | some oid =>
          match envHas f s oid name with
          | none => .stuck
          | some true => envAssign f s oid name v
          | some false => .thrown "invalid internal condition."
        | none => .thrown "invalid internal condition."

/-- `Environment::initialize`: introduce or overwrite the name in the
frame `id` with the given mutability (never consults outer frames). -/
def envInit (s : Store) (id : Nat) (name : String) (v : Value) (m : Bool) : Store :=
  match s.envs.get? id with
  | none => s
  | some fr => storeSetFrame s id { fr with dic := dicSet fr.dic name ⟨v, m⟩ }

/-- The frame (index and symbol) holding the innermost binding of `name`
on the chain starting at `id` — the walk shared by `get` and `assign`. -/
def chainFind : Nat → Store → Nat → String → Option (Nat × Sym)
  | 0, _, _, _ => none
  | f+1, s, id, name =>
    match s.envs.get? id with
    | none => none
    | some fr =>
      match fr.dic.lookup name with
      | some sym => some (id, sym)
      | none =>
        match fr.outer with
        | some oid => chainFind f s oid name
        | none => none

/-- The store after `Environment::assign` succeeds at frame `j`: the
binding's value is replaced, its mutability kept, everything else
untouched. -/
def storeAssignAt (s : Store) (j : Nat) (name : String) (v : Value) : Store :=
  match s.envs.get? j with
  | none => s
  | some fr => storeSetFrame s j { fr with dic := dicSetVal fr.dic name v }

/-- `Environment::append_outer`: walk to the tail of the chain starting at
`id` and hang `newOuter` there. -/
def appendOuterGo : Nat → Store → Nat → Nat → Store
  | 0, s, _, _ => s
  | f+1, s, id, newOuter =>
    match s.envs.get? id with
    | none => s
    | some fr =>
      match fr.outer with
      | none => storeSetFrame s id { fr with outer := some newOuter }
      | some oid => appendOuterGo f s oid newOuter

/-- `append_outer` entry point, with enough fuel for any acyclic chain. -/
def appendOuter (s : Store) (id newOuter : Nat) : Store :=
  appendOuterGo (chainFuel s) s id newOuter

/-- Allocate a fresh empty environment frame
(`std::make_shared<Environment>()` in `eval_call`). -/
def pushFrame (s : Store) : Store :=
  { s with envs := s.envs ++ [⟨[], none⟩] }

/-- `ObjectValue::builtins()`: plain objects expose only `size`. -/
def objBuiltins (name : String) : Option Value :=
  if name == "size" then some (.func [] (.native .objSize)) else none

/-- `ArrayValue::builtins()`: arrays expose `size` and `push`. -/
def arrBuiltins (name : String) : Option Value :=
  if name == "size" then some (.func [] (.native .arrSize))
  else if name == "push" then some (.func [⟨"arg", false⟩] (.native .arrPush))
  else none

/-- `Value::get_property`: objects consult their own property map first and
fall back to the builtins; arrays have an (always empty) own map and go
straight to their builtins; other kinds throw a type error.  A name missing
from the builtins makes `std::map::at` throw `std::out_of_range`. -/
def getProperty (s : Store) (v : Value) (name : String) : Except String Value :=
  match v with
  | .object id =>
    match ((s.objs.get? id).getD []).lookup name with
    | some p => .ok p
    | none =>
      match objBuiltins name with
      | some p => .ok p
      | none => .error "map::at: key not found"
  | .array _ =>
    match arrBuiltins name with
    | some p => .ok p
    | none => .error "map::at: key not found"
  | _ => .error "type error."

/-- Insert into an object's property map in the store
(`obj.properties->emplace(name, val)` in `eval_object`). -/
def storeEmplaceObj (s : Store) (id : Nat) (name : String) (v : Value) : Store :=
  { s with objs := s.objs.set id (emplace ((s.objs.get? id).getD []) name v) }

/-- Append to an array's element vector in the store
(`arr.values->push_back(val)`). -/
def storePushArr (s : Store) (id : Nat) (v : Value) : Store :=
  { s with arrs := s.arrs.set id (((s.arrs.get? id).getD []) ++ [v]) }

/-- Fuel that exceeds the depth of any acyclic reachability path through
the heap (used to drive `Value::str`, whose recursion the C++ leaves
unbounded). -/
def strFuel (s : Store) : Nat := s.objs.length + s.arrs.length + 2

/-- `Value::str_object`'s property loop: render each property as
`"name": str(value)`, comma-separated, in map iteration order. -/
def strJoinProps (sv : Value → Option String) : List (String × Value) → Option String
  | [] => some ""
  | [(k, v)] => (sv v).map (fun t => "\x22" ++ k ++ "\x22" ++ ": " ++ t)
  | (k, v) :: rest =>
    match sv v, strJoinProps sv rest with
    | some t, some r => some ("\x22" ++ k ++ "\x22" ++ ": " ++ t ++ ", " ++ r)
    | _, _ => none

/-- `Value::str_array`'s element loop. -/
def strJoinElems (sv : Value → Option String) : List Value → Option String
  | [] => some ""
  | [v] => sv v
  | v :: rest =>
    match sv v, strJoinElems sv rest with
    | some t, some r => some (t ++ ", " ++ r)
    | _, _ => none

/-- `Value::str`: textual rendering.  Objects and arrays recurse through
the heap, so the model is fuel-driven (`none` = fuel ran out, which on the
acyclic heaps real runs produce never happens with `strFuel`). -/
def strVal : Nat → Store → Value → Option String
  | 0, _, _ => none
  | f+1, s, v =>
    match v with
    | .undefined => some "undefined"
    | .bool b => some (if b then "true" else "false")
    | .long n => some (toString n)
    | .str t => some t
    | .object id =>
      (strJoinProps (strVal f s) ((s.objs.get? id).getD [])).map
        (fun body => "\x7b" ++ body ++ "\x7d")
    | .array id =>
      (strJoinElems (strVal f s) ((s.arrs.get? id).getD [])).map
        (fun body => "[" ++ body ++ "]")
    | .func _ _ => some "[function]"

/-- The body of one of the native (C++-lambda) functions, run on the call
frame `callEnv`.  `puts` renders its argument (the write to stdout is
outside the model); `assert` throws `assert failed at L:C.` on a falsy
argument, reading `__LINE__`/`__COLUMN__` from the call frame; the
`size`/`push` builtins read `this`. -/
def nativeCall (w : Native) (callEnv : Nat) (s : Store) : RunRes (Store × Value) :=
  match w with
  | .puts =>
    match envGet (chainFuel s) s callEnv "arg" with
    | .ok v =>
      match strVal (strFuel s) s v with
      | some _ => .ok (s, .undefined)
      | none => .stuck
    | .thrown m => .thrown m
    | .stuck => .stuck
  | .assert =>
    match envGet (chainFuel s) s callEnv "arg" with
    | .ok v =>
      match v.to_bool with
      | .ok true => .ok (s, .undefined)
      | .ok false =>
        match envGet (chainFuel s) s callEnv "__LINE__" with
        | .ok lv =>
          match lv.to_long with
          | .ok line =>
            match envGet (chainFuel s) s callEnv "__COLUMN__" with
            | .ok cv =>
              match cv.to_long with
              | .ok col =>
                .thrown ("assert failed at " ++ toString line ++ ":" ++ toString col ++ ".")
              | .error m => .thrown m
            | .thrown m => .thrown m
            | .stuck => .stuck
          | .error m => .thrown m
        | .thrown m => .thrown m
        | .stuck => .stuck
      | .error m => .thrown m
    | .thrown m => .thrown m
    | .stuck => .stuck
  | .objSize =>
    match envGet (chainFuel s) s callEnv "this" with
    | .ok v =>
      match v.to_object with
      | .ok id => .ok (s, .long (((s.objs.get? id).getD []).length : Int))
      | .error m => .thrown m
    | .thrown m => .thrown m
    | .stuck => .stuck
  | .arrSize =>
    match envGet (chainFuel s) s callEnv "this" with
    | .ok v =>
      match v.to_array with
      | .ok id => .ok (s, .long (((s.arrs.get? id).getD []).length : Int))
      | .error m => .thrown m
    | .thrown m => .thrown m
    | .stuck => .stuck
  | .arrPush =>
    match envGet (chainFuel s) s callEnv "this" with
    | .ok v =>
      match v.to_array with
      | .ok id =>
        match envGet (chainFuel s) s callEnv "arg" with
        | .ok arg => .ok (storePushArr s id arg, .undefined)
        | .thrown m => .thrown m
        | .stuck => .stuck
      | .error m => .thrown m
    | .thrown m => .thrown m
    | .stuck => .stuck

/-- Run a function's `eval` closure on its call frame (`f.eval(callEnv)`):
a user closure appends its captured defining environment under the call
frame and evaluates the body; a `bound` wrapper initialises `this` to the
receiver first. -/
def applyFnBody (ev : Ast → Nat → Store → RunRes (Store × Value)) :
    FnBody → Nat → Store → RunRes (Store × Value)
  | .closure body defEnv, callEnv, s => ev body callEnv (appendOuter s callEnv defEnv)
  | .native w, callEnv, s => nativeCall w callEnv s
  | .bound receiver inner, callEnv, s =>
    applyFnBody ev inner callEnv (envInit s callEnv "this" receiver false)

/-- The parameter-binding loop of `eval_call`: for each parameter in order,
evaluate the corresponding argument in the caller's environment `env` and
initialise it in `callEnv` with the parameter's mutability.  The loop runs
`params.size()` times, so arguments beyond the parameter count are never
evaluated.  (The `params` nonempty / `args` empty case is unreachable
behind the `params.size() <= args.size()` check.) -/
def bindArgs (ev : Ast → Nat → Store → RunRes (Store × Value)) (callEnv : Nat) :
    List Param → List Ast → Nat → Store → RunRes Store
  | [], _, _, s => .ok s
  | p :: ps, a :: rest, env, s =>
    match ev a env s with
    | .ok (s1, v) => bindArgs ev callEnv ps rest env (envInit s1 callEnv p.name v p.mutFlag)
    | .thrown m => .thrown m
    | .stuck => .stuck
  | _ :: _, [], _, _ => .stuck

/-- The suffix fold of `eval_call`: starting from the head's value, process
each `ARGUMENTS` / `INDEX` / `DOT` suffix in turn.
 * `ARGUMENTS`: unwrap the function; fail with `arguments error...` when
   fewer arguments than parameters are supplied; otherwise build a fresh
   call frame, bind `self`, the parameters, `__LINE__` and `__COLUMN__`
   (from the `CALL` node's position), and invoke the closure.
 * `INDEX`: unwrap the array, coerce the index to long; in range replaces
   the current value by the element, out of range leaves it unchanged.
 * `DOT`: look the property up; a function property is wrapped so that the
   eventual call sees `this` bound to the receiver.
Any other suffix node is the unreachable `invalid internal condition.`. -/
def evalSuffixes (ev : Ast → Nat → Store → RunRes (Store × Value))
    (line column : Nat) :
    Value → List Ast → Nat → Store → RunRes (Store × Value)
  | v, [], _, s => .ok (s, v)
  | v, .argsAst args :: rest, env, s =>
    match v.to_function with
    | .ok (params, fb) =>
      if params.length ≤ args.length then
        let callEnv := s.envs.length
        let s1 := envInit (pushFrame s) callEnv "self" v false
        match bindArgs ev callEnv params args env s1 with
        | .ok s2 =>
          let s3 := envInit s2 callEnv "__LINE__" (.long (line : Int)) false
          let s4 := envInit s3 callEnv "__COLUMN__" (.long (column : Int)) false
          match applyFnBody ev fb callEnv s4 with
          | .ok (s5, v2) => evalSuffixes ev line column v2 rest env s5
          | .thrown m => .thrown m
          | .stuck => .stuck
        | .thrown m => .thrown m
        | .stuck => .stuck
      else .thrown "arguments error..."
    | .error m => .thrown m
  | v, .indexAst e :: rest, env, s =>
    match v.to_array with
    | .ok id =>
      match ev e env s with
      | .ok (s1, iv) =>
        match iv.to_long with
        | .ok idx =>
          let vals := (s1.arrs.get? id).getD []
          let v2 := if 0 ≤ idx ∧ idx < (vals.length : Int)
                    then vals.getD idx.toNat v else v
          evalSuffixes ev line column v2 rest env s1
        | .error m => .thrown m
      | .thrown m => .thrown m
      | .stuck => .stuck
    | .error m => .thrown m
  | v, .dotAst name :: rest, env, s =>
    match getProperty s v name with
    | .ok prop =>
      match prop with
      | .func ps fb => evalSuffixes ev line column (.func ps (.bound v fb)) rest env s
      | _ => evalSuffixes ev line column prop rest env s
    | .error m => .thrown m
  | _, _ :: _, _, _ => .thrown "invalid internal condition."

/-- `eval_statements`: evaluate each node, returning the last one's value
(`Undefined` when empty). -/
def evalStatements (ev : Ast → Nat → Store → RunRes (Store × Value)) :
    List Ast → Nat → Store → RunRes (Store × Value)
  | [], _, s => .ok (s, .undefined)
  | [e], env, s => ev e env s
  | e :: rest, env, s =>
    match ev e env s with
    | .ok (s1, _) => evalStatements ev rest env s1
    | .thrown m => .thrown m
    | .stuck => .stuck

/-- `eval_if`'s scan: children alternate `(cond, block)*` with an optional
trailing else block; the first truthy condition selects its block. -/
def evalIf (ev : Ast → Nat → Store → RunRes (Store × Value)) :
    List Ast → Nat → Store → RunRes (Store × Value)
  | [], _, s => .ok (s, .undefined)
  | [n], env, s => ev n env s
  | c :: blk :: rest, env, s =>
    match ev c env s with
    | .ok (s1, cv) =>
      match cv.to_bool with
      | .ok true => ev blk env s1
      | .ok false => evalIf ev rest env s1
      | .error m => .thrown m
    | .thrown m => .thrown m
    | .stuck => .stuck

/-- One step of `eval_bin_expression`'s switch on the operator character.
The C++ `switch` has no default, so an unknown operator leaves `ret`
unchanged; division and modulo by zero are undefined behaviour in the
source, modelled as `.stuck`; otherwise `/` truncates toward zero and `%`
follows the dividend's sign, as C++ does. -/
def applyBinOp (ret : Int) (ope : Char) (v : Int) : RunRes Int :=
  if ope = '+' then .ok (ret + v)
  else if ope = '-' then .ok (ret - v)
  else if ope = '*' then .ok (ret * v)
  else if ope = '/' then (if v = 0 then .stuck else .ok (Int.tdiv ret v))
  else if ope = '%' then (if v = 0 then .stuck else .ok (Int.tmod ret v))
  else .ok ret

/-- The left fold of `eval_bin_expression` over `(operator, operand)` pairs
(each operand is coerced with `to_long`; the operator token's first
character selects the operation). -/
def evalBinLoop (ev : Ast → Nat → Store → RunRes (Store × Value)) :
    Int → List (String × Ast) → Nat → Store → RunRes (Store × Value)
  | ret, [], _, s => .ok (s, .long ret)
  | ret, (opTok, e) :: rest, env, s =>
    match ev e env s with
    | .ok (s1, v) =>
      match v.to_long with
      | .ok n =>
        match applyBinOp ret (opTok.data.headD (Char.ofNat 0)) n with
        | .ok ret2 => evalBinLoop ev ret2 rest env s1
        | .thrown m => .thrown m
        | .stuck => .stuck
      | .error m => .thrown m
    | .thrown m => .thrown m
    | .stuck => .stuck

/-- `eval_logical_or`'s loop: return the first operand whose `to_bool` is
truthy, else the last operand's value. -/
def evalOrLoop (ev : Ast → Nat → Store → RunRes (Store × Value)) :
    List Ast → Nat → Store → RunRes (Store × Value)
  | [], _, s => .ok (s, .undefined)
  | e :: rest, env, s =>
    match ev e env s with
    | .ok (s1, v) =>
      match v.to_bool with
      | .ok true => .ok (s1, v)
      | .ok false =>
        match rest with
        | [] => .ok (s1, v)
        | _ :: _ => evalOrLoop ev rest env s1
      | .error m => .thrown m
    | .thrown m => .thrown m
    | .stuck => .stuck

/-- `eval_logical_and`'s loop: return the first falsy operand, else the
last operand's value. -/
def evalAndLoop (ev : Ast → Nat → Store → RunRes (Store × Value)) :
    List Ast → Nat → Store → RunRes (Store × Value)
  | [], _, s => .ok (s, .undefined)
  | e :: rest, env, s =>
    match ev e env s with
    | .ok (s1, v) =>
      match v.to_bool with
      | .ok false => .ok (s1, v)
      | .ok true =>
        match rest with
        | [] => .ok (s1, v)
        | _ :: _ => evalAndLoop ev rest env s1
      | .error m => .thrown m
    | .thrown m => .thrown m
    | .stuck => .stuck

/-- `eval_object`'s property loop: evaluate each property expression in
source order and `emplace` it into the object being built at `id`. -/
def evalObjProps (ev : Ast → Nat → Store → RunRes (Store × Value)) (id : Nat) :
    List (String × Ast) → Nat → Store → RunRes (Store × Value)
  | [], _, s => .ok (s, .object id)
  | (name, e) :: rest, env, s =>
    match ev e env s with
    | .ok (s1, v) => evalObjProps ev id rest env (storeEmplaceObj s1 id name v)
    | .thrown m => .thrown m
    | .stuck => .stuck

/-- `eval_array`'s element loop. -/
def evalArrElems (ev : Ast → Nat → Store → RunRes (Store × Value)) (id : Nat) :
    List Ast → Nat → Store → RunRes (Store × Value)
  | [], _, s => .ok (s, .array id)
  | e :: rest, env, s =>
    match ev e env s with
    | .ok (s1, v) => evalArrElems ev id rest env (storePushArr s1 id v)
    | .thrown m => .thrown m
    | .stuck => .stuck

/-- `eval_interpolated_string`'s loop: concatenate the `str` rendering of
each child. -/
def evalInterp (ev : Ast → Nat → Store → RunRes (Store × Value)) :
    List Ast → String → Nat → Store → RunRes (Store × Value)
  | [], acc, _, s => .ok (s, .str acc)
  | e :: rest, acc, env, s =>
    match ev e env s with
    | .ok (s1, v) =>
      match strVal (strFuel s1) s1 v with
      | some t => evalInterp ev rest (acc ++ t) env s1
      | none => .stuck
    | .thrown m => .thrown m
    | .stuck => .stuck

/-- `Eval::eval`: dispatch on the node tag, fuel-driven (each recursive
call of the C++ evaluator costs one unit; real runs are reproduced by any
sufficiently large fuel). -/
def eval : Nat → Ast → Nat → Store → RunRes (Store × Value)
  | 0, _, _, _ => .stuck
  | f+1, ast, env, s =>
    match ast with
    | .statements nodes => evalStatements (eval f) nodes env s
    | .whileAst c b =>
      match eval f c env s with
      | .ok (s1, cv) =>
        match cv.to_bool with
        | .ok true =>
          match eval f b env s1 with
          | .ok (s2, _) => eval f (.whileAst c b) env s2
          | .thrown m => .thrown m
          | .stuck => .stuck
        | .ok false => .ok (s1, .undefined)
        | .error m => .thrown m
      | .thrown m => .thrown m
      | .stuck => .stuck
    | .ifAst nodes => evalIf (eval f) nodes env s
    | .funcAst params body =>
      .ok (s, .func (params.map (fun p => ⟨p.name, p.mutTok == "mut"⟩)) (.closure body env))
    | .callAst line column head suffixes =>
      match eval f head env s with
      | .ok (s1, v) => evalSuffixes (eval f) line column v suffixes env s1
      | .thrown m => .thrown m
      | .stuck => .stuck
    | .blockAst _ => .ok (s, .undefined)
    | .assignAst mutTok name expr =>
      match eval f expr env s with
      | .ok (s1, v) =>
        match envHas (chainFuel s1) s1 env name with
        | none => .stuck
        | some true =>
          match envAssign (chainFuel s1) s1 env name v with
          | .ok s2 => .ok (s2, v)
          | .thrown m => .thrown m
          | .stuck => .stuck
        | some false => .ok (envInit s1 env name v (mutTok == "mut"), v)
      | .thrown m => .thrown m
      | .stuck => .stuck
    | .orAst nodes => evalOrLoop (eval f) nodes env s
    | .andAst nodes => evalAndLoop (eval f) nodes env s
    | .condAst lhs opTok rhs =>
      match eval f lhs env s with
      | .ok (s1, lv) =>
        match eval f rhs env s1 with
        | .ok (s2, rv) =>
          match condCompare opTok lv rv with
          | .ok b => .ok (s2, .bool b)
          | .error m => .thrown m
        | .thrown m => .thrown m
        | .stuck => .stuck
      | .thrown m => .thrown m
      | .stuck => .stuck
    | .plusAst e => eval f e env s
    | .minusAst e =>
      match eval f e env s with
      | .ok (s1, v) =>
        match v.to_long with
        | .ok n => .ok (s1, .long (n * (-1)))
        | .error m => .thrown m
      | .thrown m => .thrown m
      | .stuck => .stuck
    | .notAst e =>
      match eval f e env s with
      | .ok (s1, v) =>
        match v.to_bool with
        | .ok b => .ok (s1, .bool (!b))
        | .error m => .thrown m
      | .thrown m => .thrown m
      | .stuck => .stuck
    | .binAst first rest =>
      match eval f first env s with
      | .ok (s1, v) =>
        match v.to_long with
        | .ok n => evalBinLoop (eval f) n rest env s1
        | .error m => .thrown m
      | .thrown m => .thrown m
      | .stuck => .stuck
    | .identAst name =>
      match envGet (chainFuel s) s env name with
      | .ok v => .ok (s, v)
      | .thrown m => .thrown m
      | .stuck => .stuck
    | .objAst props =>
      evalObjProps (eval f) s.objs.length props env { s with objs := s.objs ++ [[]] }
    | .arrAst elems =>
      evalArrElems (eval f) s.arrs.length elems env { s with arrs := s.arrs ++ [[]] }
    | .undefAst => .ok (s, .undefined)
    | .boolAst tok => .ok (s, .bool (tok == "true"))
    | .numAst tok => .ok (s, .long (stol tok))
    | .interpAst nodes => evalInterp (eval f) nodes "" env s
    | .tokenAst tok => .ok (s, .str tok)
    | .argsAst _ => .thrown "invalid Ast type"
    | .indexAst _ => .thrown "invalid Ast type"
    | .dotAst _ => .thrown "invalid Ast type"

/-- Projection: the final value of a run, when it succeeded. -/
def resultValue : RunRes (Store × Value) → Option Value
  | .ok (_, v) => some v
  | _ => none

/-- Projection: the message of a thrown exception, when one was thrown. -/
def errMsg {α : Type} : RunRes α → Option String
  | .thrown m => some m
  | _ => none

/-- A root store with one empty global frame (a bare `Environment`). -/
def store0 : Store := ⟨[⟨[], none⟩], [], []⟩

/-- The `puts` prelude binding of `setup_built_in_functions`. -/
def putsFn : Value := .func [⟨"arg", true⟩] (.native .puts)

/-- The `assert` prelude binding of `setup_built_in_functions`. -/
def assertFn : Value := .func [⟨"arg", true⟩] (.native .assert)

/-- A root store whose global frame carries the prelude
(`setup_built_in_functions`: `puts` and `assert`, both immutable). -/
def preludeStore : Store :=
  ⟨[⟨[("puts", ⟨putsFn, false⟩), ("assert", ⟨assertFn, false⟩)], none⟩], [], []⟩

/-- Strict key order between property-map entries (the `std::map`
ordering). -/
def pairKeyLt (a b : String × Value) : Prop := strLtB a.1 b.1 = true

/-- Store invariant: every object property map is strictly sorted by key,
as a `std::map` always is. -/
def objInv (s : Store) : Prop := ∀ l ∈ s.objs, List.Pairwise pairKeyLt l

/-- An evaluator step preserves the sortedness of all object property
maps. -/
def Pres (ev : Ast → Nat → Store → RunRes (Store × Value)) : Prop :=
  ∀ a env s s2 v, objInv s → ev a env s = .ok (s2, v) → objInv s2

/-- AST of the program `{x: 1, x: 2}.x` (the whole program hoists to the
`CALL` node; the duplicated `OBJECT_PROPERTY` names are both `x`). -/
def progDupObj : Ast :=
  .callAst 1 1 (.objAst [("x", .numAst "1"), ("x", .numAst "2")]) [.dotAst "x"]

/-- AST of the program `true == 1` (hoists to the `CONDITION` node). -/
def progMixedCmp : Ast := .condAst (.boolAst "true") "==" (.numAst "1")

/-- AST of the program `(fn () {})(nosuch)`: a zero-parameter function
called with one extra argument whose evaluation would fail. -/
def progExtraArg : Ast :=
  .callAst 1 1 (.funcAst [] (.statements [])) [.argsAst [.identAst "nosuch"]]

/-- AST of the array literal `[10, 20, 30]`. -/
def arrLit123 : Ast := .arrAst [.numAst "10", .numAst "20", .numAst "30"]

/-- AST of the program `a = [10, 20, 30]; a[999]`. -/
def progIndexOut : Ast :=
  .statements [.assignAst "" "a" arrLit123,
               .callAst 1 22 (.identAst "a") [.indexAst (.numAst "999")]]

/-- AST of the program `a = [10, 20, 30]; a`. -/
def progArrayItself : Ast :=
  .statements [.assignAst "" "a" arrLit123, .identAst "a"]

/-- AST of the program `mut x = 1; x = 2; x`. -/
def progMutAssign : Ast :=
  .statements [.assignAst "mut" "x" (.numAst "1"),
               .assignAst "" "x" (.numAst "2"), .identAst "x"]

/-- AST of the program `x = 1; x = 2; x` (first assignment declares `x`
immutable). -/
def progImmutAssign : Ast :=
  .statements [.assignAst "" "x" (.numAst "1"),
               .assignAst "" "x" (.numAst "2"), .identAst "x"]

/-- AST of the program `true || (1/0)` (hoists to the `LOGICAL_OR` node;
the parenthesised `1/0` hoists to its `MULTIPLICATIVE` node). -/
def progOrShort : Ast :=
  .orAst [.boolAst "true", .binAst (.numAst "1") [("/", .numAst "0")]]

/-- AST of the program `false && (1/0)`. -/
def progAndShort : Ast :=
  .andAst [.boolAst "false", .binAst (.numAst "1") [("/", .numAst "0")]]

/-- AST of the program `assert(1 == 2)` (the `CALL` node sits at line 1,
column 1). -/
def progAssertFail : Ast :=
  .callAst 1 1 (.identAst "assert") [.argsAst [.condAst (.numAst "1") "==" (.numAst "2")]]

/-- AST of the program `assert(1 == 1)`. -/
def progAssertPass : Ast :=
  .callAst 1 1 (.identAst "assert") [.argsAst [.condAst (.numAst "1") "==" (.numAst "1")]]

/-- AST of the object literal `{b: 1, a: 2}` (property names out of key
order in the source text). -/
def progObjBA : Ast := .objAst [("b", .numAst "1"), ("a", .numAst "2")]

/-! ## Order facts about the string comparison -/

theorem charListLt_irrefl : ∀ l : List Char, charListLt l l = false
  | [] => rfl
  | a :: as => by simp [charListLt, charListLt_irrefl as]

theorem strLtB_irrefl (a : String) : strLtB a a = false :=
  charListLt_irrefl a.data

theorem charListLt_trans (as : List Char) :
    ∀ bs cs, charListLt as bs = true → charListLt bs cs = true →
      charListLt as cs = true := by
  induction as with
  | nil =>
    intro bs cs h1 h2
    cases bs with
    | nil => simp [charListLt] at h1
    | cons b bs =>
      cases cs with
      | nil => simp [charListLt] at h2
      | cons c cs => simp [charListLt]
  | cons a as ih =>
    intro bs cs h1 h2
    cases bs with
    | nil => simp [charListLt] at h1
    | cons b bs =>
      cases cs with
      | nil => simp [charListLt] at h2
      | cons c cs =>
        simp only [charListLt] at h1 h2 ⊢
        by_cases hab : a < b
        · by_cases hbc : b < c
          · simp [lt_trans hab hbc]
          · by_cases hcb : c < b
            · rw [if_neg hbc, if_pos hcb] at h2; cases h2
            · have hbceq : b = c := le_antisymm (not_lt.mp hcb) (not_lt.mp hbc)
              subst hbceq
              simp [hab]
        · by_cases hba : b < a
          · rw [if_neg hab, if_pos hba] at h1; cases h1
          · have habeq : a = b := le_antisymm (not_lt.mp hba) (not_lt.mp hab)
            subst habeq
            rw [if_neg hab, if_neg hab] at h1
            by_cases hac : a < c
            · simp [hac]
            · by_cases hca : c < a
              · rw [if_neg hac, if_pos hca] at h2; cases h2
              · have haceq : a = c := le_antisymm (not_lt.mp hca) (not_lt.mp hac)
                subst haceq
                rw [if_neg hac, if_neg hac] at h2
                rw [if_neg hac, if_neg hac]
                exact ih bs cs h1 h2

theorem strLtB_trans {a b c : String} (h1 : strLtB a b = true)
    (h2 : strLtB b c = true) : strLtB a c = true :=
  charListLt_trans a.data b.data c.data h1 h2

theorem charListLt_eq_of_not (as : List Char) :
    ∀ bs, charListLt as bs = false → charListLt bs as = false → as = bs := by
  induction as with
  | nil =>
    intro bs h1 h2
    cases bs with
    | nil => rfl
    | cons b bs => simp [charListLt] at h1
  | cons a as ih =>
    intro bs h1 h2
    cases bs with
    | nil => simp [charListLt] at h2
    | cons b bs =>
      simp only [charListLt] at h1 h2
      by_cases hab : a < b
      · rw [if_pos hab] at h1; cases h1
      · by_cases hba : b < a
        · rw [if_pos hba] at h2; cases h2
        · have habeq : a = b := le_antisymm (not_lt.mp hba) (not_lt.mp hab)
          subst habeq
          rw [if_neg hab, if_neg hab] at h1
          rw [ih bs h1 (by rw [if_neg hab, if_neg hab] at h2; exact h2)]

theorem strLtB_eq_of_not {a b : String} (h1 : strLtB a b = false)
    (h2 : strLtB b a = false) : a = b := by
  have hd := charListLt_eq_of_not a.data b.data h1 h2
  cases a; cases b
  exact congrArg String.mk hd

/-! ## Facts about association-list lookup and `std::map::emplace` -/

theorem lookupCons {β : Type} (n k : String) (b : β) (rest : List (String × β)) :
    List.lookup n ((k, b) :: rest) = if n == k then some b else List.lookup n rest := by
  simp only [List.lookup]
  cases n == k <;> simp

theorem lookup_mem {β : Type} :
    ∀ {l : List (String × β)} {n : String} {b : β},
      l.lookup n = some b → (n, b) ∈ l := by
  intro l
  induction l with
  | nil => intro n b h; simp [List.lookup] at h
  | cons p rest ih =>
    intro n b h
    obtain ⟨k, w⟩ := p
    rw [lookupCons] at h
    by_cases hk : (n == k) = true
    · rw [if_pos hk] at h
      injection h with h
      subst h
      have hnk : n = k := beq_iff_eq.mp hk
      subst hnk
      exact List.mem_cons_self _ _
    · rw [if_neg hk] at h
      exact List.mem_cons_of_mem _ (ih h)

theorem emplace_mem {l : List (String × Value)} {n : String} {v : Value} :
    ∀ {p}, p ∈ emplace l n v → p ∈ l ∨ p = (n, v) := by
  induction l with
  | nil => intro p h; simp [emplace] at h; right; exact h
  | cons kw rest ih =>
    intro p h
    obtain ⟨k, w⟩ := kw
    simp only [emplace] at h
    by_cases h1 : strLtB n k = true
    · rw [if_pos h1] at h
      rcases List.mem_cons.mp h with he | hm
      · right; exact he
      · left; exact hm
    · rw [if_neg h1] at h
      by_cases h2 : strLtB k n = true
      · rw [if_pos h2] at h
        rcases List.mem_cons.mp h with he | hm
        · left; rw [he]; exact List.mem_cons_self _ _
        · rcases ih hm with h3 | h3
          · left; exact List.mem_cons_of_mem _ h3
          · right; exact h3
      · rw [if_neg h2] at h
        left; exact h

theorem emplace_pairwise {l : List (String × Value)} {n : String} {v : Value}
    (h : List.Pairwise pairKeyLt l) : List.Pairwise pairKeyLt (emplace l n v) := by
  induction l with
  | nil => simp [emplace]
  | cons kw rest ih =>
    obtain ⟨k, w⟩ := kw
    rcases List.pairwise_cons.mp h with ⟨hhead, htail⟩
    simp only [emplace]
    by_cases h1 : strLtB n k = true
    · rw [if_pos h1]
      refine List.Pairwise.cons ?_ h
      intro p hp
      rcases List.mem_cons.mp hp with he | hm
      · rw [he]; exact h1
      · exact strLtB_trans h1 (hhead p hm)
    · rw [if_neg h1]
      by_cases h2 : strLtB k n = true
      · rw [if_pos h2]
        refine List.Pairwise.cons ?_ (ih htail)
        intro p hp
        rcases emplace_mem hp with h3 | h3
        · exact hhead p h3
        · rw [h3]; exact h2
      · rw [if_neg h2]
        exact h

theorem emplace_lookup_present {l : List (String × Value)} {n : String} {w v : Value}
    (hp : List.Pairwise pairKeyLt l) (h : l.lookup n = some w) :
    emplace l n v = l := by
  induction l with
  | nil => simp [List.lookup] at h
  | cons kw rest ih =>
    obtain ⟨k, w0⟩ := kw
    rcases List.pairwise_cons.mp hp with ⟨hhead, htail⟩
    rw [lookupCons] at h
    by_cases hk : (n == k) = true
    · have hnk : n = k := beq_iff_eq.mp hk
      subst hnk
      simp [emplace, strLtB_irrefl]
    · rw [if_neg hk] at h
      have hmem : (n, w) ∈ rest := lookup_mem h
      have hkn : strLtB k n = true := hhead (n, w) hmem
      have hnk2 : strLtB n k = false := by
        cases hx : strLtB n k
        · rfl
        · exact absurd (strLtB_trans hx hkn) (by simp [strLtB_irrefl])
      simp only [emplace, hnk2, hkn, Bool.false_eq_true, if_false, if_true]
      rw [ih htail h]

theorem emplace_lookup_absent {l : List (String × Value)} {n : String} {v : Value}
    (h : l.lookup n = none) : (emplace l n v).lookup n = some v := by
  induction l with
  | nil => simp [emplace, List.lookup]
  | cons kw rest ih =>
    obtain ⟨k, w0⟩ := kw
    rw [lookupCons] at h
    by_cases hk : (n == k) = true
    · rw [if_pos hk] at h; cases h
    · rw [if_neg hk] at h
      simp only [emplace]
      by_cases h1 : strLtB n k = true
      · rw [if_pos h1, lookupCons]
        simp
      · rw [if_neg h1]
        by_cases h2 : strLtB k n = true
        · rw [if_pos h2, lookupCons, if_neg hk]
          exact ih h
        · have heq : n = k :=
            strLtB_eq_of_not (by simpa using h1) (by simpa using h2)
          exact absurd (beq_iff_eq.mpr heq) hk

/-! ## The object maps are untouched by the environment operations -/

theorem objs_envInit (s : Store) (id : Nat) (n : String) (v : Value) (m : Bool) :
    (envInit s id n v m).objs = s.objs := by
  unfold envInit
  cases s.envs.get? id <;> rfl

theorem objs_appendOuterGo :
    ∀ (f : Nat) (s : Store) (id o : Nat), (appendOuterGo f s id o).objs = s.objs := by
  intro f
  induction f with
  | zero => intro s id o; rfl
  | succ f ih =>
    intro s id o
    simp only [appendOuterGo]
    cases s.envs.get? id with
    | none => rfl
    | some fr =>
      obtain ⟨dic, outerO⟩ := fr
      cases outerO with
      | none => rfl
      | some oid => exact ih s oid o

theorem objs_appendOuter (s : Store) (id o : Nat) :
    (appendOuter s id o).objs = s.objs :=
  objs_appendOuterGo _ s id o

theorem objs_envAssign :
    ∀ (f : Nat) (s : Store) (id : Nat) (n : String) (v : Value) (s2 : Store),
      envAssign f s id n v = .ok s2 → s2.objs = s.objs := by
  intro f
  induction f with
  | zero => intro s id n v s2 h; cases h
  | succ f ih =>
    intro s id n v s2 h
    simp only [envAssign] at h
    cases hg : s.envs.get? id with
    | none => rw [hg] at h; cases h
    | some fr =>
      rw [hg] at h
      simp only [] at h
      cases hl : fr.dic.lookup n with
      | some sym =>
        rw [hl] at h
        simp only [] at h
        by_cases hm : sym.mutFlag = true
        · rw [if_pos hm] at h
          cases h
          rfl
        · rw [if_neg hm] at h; cases h
      | none =>
        rw [hl] at h
        simp only [] at h
        cases ho : fr.outer with
        | none => rw [ho] at h; cases h
        | some oid =>
          rw [ho] at h
          simp only [] at h
          cases hh : envHas f s oid n with
          | none => rw [hh] at h; cases h
          | some b =>
            rw [hh] at h
            cases b
            · simp only [] at h; cases h
            · simp only [] at h; exact ih s oid n v s2 h

theorem objInv_of_objs_eq {s s2 : Store} (h : s2.objs = s.objs) (hi : objInv s) :
    objInv s2 := fun l hl => hi l (h ▸ hl)

theorem objInv_allocObj {s : Store} (hi : objInv s) :
    objInv { s with objs := s.objs ++ [[]] } := by
  intro l hl
  rcases List.mem_append.mp hl with hm | hm
  · exact hi l hm
  · rcases List.mem_singleton.mp hm with rfl
    exact List.Pairwise.nil

theorem objInv_storeEmplaceObj {s : Store} {id : Nat} {n : String} {v : Value}
    (hi : objInv s) : objInv (storeEmplaceObj s id n v) := by
  intro l hl
  rcases List.mem_or_eq_of_mem_set hl with hm | hm
  · exact hi l hm
  · subst hm
    apply emplace_pairwise
    cases hg : s.objs.get? id with
    | none => simp [hg]
    | some base =>
      simp only [hg, Option.getD_some]
      exact hi base (List.get?_mem hg)

/-! ## Every evaluator step keeps all object maps sorted -/

theorem nativeCall_objs {w : Native} {ce : Nat} {s s2 : Store} {v : Value}
    (h : nativeCall w ce s = .ok (s2, v)) : s2.objs = s.objs := by
  cases w <;> simp only [nativeCall] at h <;>
    (repeat' split at h) <;>
    first
      | (cases h; rfl)
      | cases h

theorem applyFnBody_pres {ev} (hev : Pres ev) :
    ∀ (fb : FnBody) (ce : Nat) (s s2 : Store) (v : Value),
      objInv s → applyFnBody ev fb ce s = .ok (s2, v) → objInv s2
  | .closure body defEnv, ce, s, s2, v, hi, h => by
    simp only [applyFnBody] at h
    exact hev body ce _ s2 v (objInv_of_objs_eq (objs_appendOuter s ce defEnv) hi) h
  | .native w, ce, s, s2, v, hi, h => by
    simp only [applyFnBody] at h
    exact objInv_of_objs_eq (nativeCall_objs h) hi
  | .bound receiver inner, ce, s, s2, v, hi, h => by
    simp only [applyFnBody] at h
    exact applyFnBody_pres hev inner ce _ s2 v
      (objInv_of_objs_eq (objs_envInit s ce "this" receiver false) hi) h

theorem bindArgs_pres {ev} (hev : Pres ev) {callEnv : Nat} :
    ∀ (params : List Param) (args : List Ast) (env : Nat) (s s2 : Store),
      objInv s → bindArgs ev callEnv params args env s = .ok s2 → objInv s2 := by
  intro params
  induction params with
  | nil =>
    intro args env s s2 hi h
    simp only [bindArgs] at h
    cases h
    exact hi
  | cons p ps ih =>
    intro args env s s2 hi h
    cases args with
    | nil => simp only [bindArgs] at h; cases h
    | cons a rest =>
      simp only [bindArgs] at h
      cases hev1 : ev a env s with
      | ok pr =>
        obtain ⟨s1, v1⟩ := pr
        rw [hev1] at h
        simp only [] at h
        exact ih rest env _ s2
          (objInv_of_objs_eq (objs_envInit s1 callEnv p.name v1 p.mutFlag)
            (hev a env s s1 v1 hi hev1)) h
      | thrown m => rw [hev1] at h; cases h
      | stuck => rw [hev1] at h; cases h

theorem evalSuffixes_pres {ev} (hev : Pres ev) {line col : Nat} :
    ∀ (sfx : List Ast) (v : Value) (env : Nat) (s s2 : Store) (v2 : Value),
      objInv s → evalSuffixes ev line col v sfx env s = .ok (s2, v2) → objInv s2 := by
  intro sfx
  induction sfx with
  | nil =>
    intro v env s s2 v2 hi h
    simp only [evalSuffixes] at h
    cases h
    exact hi
  | cons sf rest ih =>
    intro v env s s2 v2 hi h
    cases sf
    case argsAst args =>
      simp only [evalSuffixes] at h
      cases htf : v.to_function with
      | error m => rw [htf] at h; cases h
      | ok pr =>
        obtain ⟨params, fb⟩ := pr
        rw [htf] at h
        simp only [] at h
        by_cases hlen : params.length ≤ args.length
        · rw [if_pos hlen] at h
          have hi1 : objInv (envInit (pushFrame s) s.envs.length "self" v false) :=
            objInv_of_objs_eq (objs_envInit _ _ _ _ _) hi
          cases hb : bindArgs ev s.envs.length params args env
              (envInit (pushFrame s) s.envs.length "self" v false) with
          | ok s3 =>
            rw [hb] at h
            simp only [] at h
            have hi3 : objInv s3 := bindArgs_pres hev params args env _ s3 hi1 hb
            have hi5 : objInv (envInit (envInit s3 s.envs.length "__LINE__"
                (.long (line : Int)) false) s.envs.length "__COLUMN__"
                (.long (col : Int)) false) :=
              objInv_of_objs_eq (objs_envInit _ _ _ _ _)
                (objInv_of_objs_eq (objs_envInit _ _ _ _ _) hi3)
            cases ha : applyFnBody ev fb s.envs.length
                (envInit (envInit s3 s.envs.length "__LINE__" (.long (line : Int)) false)
                  s.envs.length "__COLUMN__" (.long (col : Int)) false) with
            | ok pr2 =>
              obtain ⟨s5, v5⟩ := pr2
              rw [ha] at h
              simp only [] at h
              exact ih v5 env s5 s2 v2 (applyFnBody_pres hev fb _ _ s5 v5 hi5 ha) h
            | thrown m => rw [ha] at h; cases h
            | stuck => rw [ha] at h; cases h
          | thrown m => rw [hb] at h; cases h
          | stuck => rw [hb] at h; cases h
        · rw [if_neg hlen] at h; cases h
    case indexAst e =>
      simp only [evalSuffixes] at h
      cases hta : v.to_array with
      | error m => rw [hta] at h; cases h
      | ok id =>
        rw [hta] at h
        simp only [] at h
        cases hev1 : ev e env s with
        | ok pr =>
          obtain ⟨s1, iv⟩ := pr
          rw [hev1] at h
          simp only [] at h
          cases htl : iv.to_long with
          | ok i =>
            rw [htl] at h
            simp only [] at h
            exact ih _ env s1 s2 v2 (hev e env s s1 iv hi hev1) h
          | error m => rw [htl] at h; cases h
        | thrown m => rw [hev1] at h; cases h
        | stuck => rw [hev1] at h; cases h
    case dotAst name =>
      simp only [evalSuffixes] at h
      cases hgp : getProperty s v name with
      | error m => rw [hgp] at h; cases h
      | ok prop =>
        rw [hgp] at h
        simp only [] at h
        cases prop <;> exact ih _ env s s2 v2 hi h
    all_goals (simp only [evalSuffixes] at h; cases h)

theorem evalStatements_pres {ev} (hev : Pres ev) :
    ∀ (nodes : List Ast) (env : Nat) (s s2 : Store) (v : Value),
      objInv s → evalStatements ev nodes env s = .ok (s2, v) → objInv s2 := by
  intro nodes
  induction nodes with
  | nil =>
    intro env s s2 v hi h
    simp only [evalStatements] at h
    cases h
    exact hi
  | cons e rest ih =>
    intro env s s2 v hi h
    cases rest with
    | nil =>
      simp only [evalStatements] at h
      exact hev e env s s2 v hi h
    | cons e2 rest2 =>
      simp only [evalStatements] at h
      cases hev1 : ev e env s with
      | ok pr =>
        obtain ⟨s1, v1⟩ := pr
        rw [hev1] at h
        simp only [] at h
        exact ih env s1 s2 v (hev e env s s1 v1 hi hev1) h
      | thrown m => rw [hev1] at h; cases h
      | stuck => rw [hev1] at h; cases h

theorem evalIf_pres {ev} (hev : Pres ev) :
    ∀ (nodes : List Ast) (env : Nat) (s s2 : Store) (v : Value),
      objInv s → evalIf ev nodes env s = .ok (s2, v) → objInv s2
  | [], env, s, s2, v, hi, h => by
    simp only [evalIf] at h
    cases h
    exact hi
  | [n], env, s, s2, v, hi, h => by
    simp only [evalIf] at h
    exact hev n env s s2 v hi h
  | c :: blk :: rest, env, s, s2, v, hi, h => by
    simp only [evalIf] at h
    cases hev1 : ev c env s with
    | ok pr =>
      obtain ⟨s1, cv⟩ := pr
      rw [hev1] at h
      simp only [] at h
      have hi1 := hev c env s s1 cv hi hev1
      cases hb : cv.to_bool with
      | ok tb =>
        rw [hb] at h
        cases tb
        · simp only [] at h
          exact evalIf_pres hev rest env s1 s2 v hi1 h
        · simp only [] at h
          exact hev blk env s1 s2 v hi1 h
      | error m => rw [hb] at h; cases h
    | thrown m => rw [hev1] at h; cases h
    | stuck => rw [hev1] at h; cases h

theorem evalOrLoop_pres {ev} (hev : Pres ev) :
    ∀ (nodes : List Ast) (env : Nat) (s s2 : Store) (v : Value),
      objInv s → evalOrLoop ev nodes env s = .ok (s2, v) → objInv s2 := by
  intro nodes
  induction nodes with
  | nil =>
    intro env s s2 v hi h
    simp only [evalOrLoop] at h
    cases h
    exact hi
  | cons e rest ih =>
    intro env s s2 v hi h
    simp only [evalOrLoop] at h
    cases hev1 : ev e env s with
    | ok pr =>
      obtain ⟨s1, v1⟩ := pr
      rw [hev1] at h
      simp only [] at h
      have hi1 := hev e env s s1 v1 hi hev1
      cases hb : v1.to_bool with
      | ok tb =>
        rw [hb] at h
        cases tb
        · simp only [] at h
          cases rest with
          | nil => cases h; exact hi1
          | cons e2 rest2 => exact ih env s1 s2 v hi1 h
        · simp only [] at h
          cases h
          exact hi1
      | error m => rw [hb] at h; cases h
    | thrown m => rw [hev1] at h; cases h
    | stuck => rw [hev1] at h; cases h

theorem evalAndLoop_pres {ev} (hev : Pres ev) :
    ∀ (nodes : List Ast) (env : Nat) (s s2 : Store) (v : Value),
      objInv s → evalAndLoop ev nodes env s = .ok (s2, v) → objInv s2 := by
  intro nodes
  induction nodes with
  | nil =>
    intro env s s2 v hi h
    simp only [evalAndLoop] at h
    cases h
    exact hi
  | cons e rest ih =>
    intro env s s2 v hi h
    simp only [evalAndLoop] at h
    cases hev1 : ev e env s with
    | ok pr =>
      obtain ⟨s1, v1⟩ := pr
      rw [hev1] at h
      simp only [] at h
      have hi1 := hev e env s s1 v1 hi hev1
      cases hb : v1.to_bool with
      | ok tb =>
        rw [hb] at h
        cases tb
        · simp only [] at h
          cases h
          exact hi1
        · simp only [] at h
          cases rest with
          | nil => cases h; exact hi1
          | cons e2 rest2 => exact ih env s1 s2 v hi1 h
      | error m => rw [hb] at h; cases h
    | thrown m => rw [hev1] at h; cases h
    | stuck => rw [hev1] at h; cases h

theorem evalBinLoop_pres {ev} (hev : Pres ev) :
    ∀ (rest : List (String × Ast)) (ret : Int) (env : Nat) (s s2 : Store) (v : Value),
      objInv s → evalBinLoop ev ret rest env s = .ok (s2, v) → objInv s2 := by
  intro rest
  induction rest with
  | nil =>
    intro ret env s s2 v hi h
    simp only [evalBinLoop] at h
    cases h
    exact hi
  | cons oe rest2 ih =>
    intro ret env s s2 v hi h
    obtain ⟨opTok, e⟩ := oe
    simp only [evalBinLoop] at h
    cases hev1 : ev e env s with
    | ok pr =>
      obtain ⟨s1, v1⟩ := pr
      rw [hev1] at h
      simp only [] at h
      have hi1 := hev e env s s1 v1 hi hev1
      cases htl : v1.to_long with
      | ok n =>
        rw [htl] at h
        simp only [] at h
        cases hop : applyBinOp ret (opTok.data.headD (Char.ofNat 0)) n with
        | ok ret2 =>
          rw [hop] at h
          simp only [] at h
          exact ih ret2 env s1 s2 v hi1 h
        | thrown m => rw [hop] at h; cases h
        | stuck => rw [hop] at h; cases h
      | error m => rw [htl] at h; cases h
    | thrown m => rw [hev1] at h; cases h
    | stuck => rw [hev1] at h; cases h

theorem evalObjProps_pres {ev} (hev : Pres ev) {id : Nat} :
    ∀ (props : List (String × Ast)) (env : Nat) (s s2 : Store) (v : Value),
      objInv s → evalObjProps ev id props env s = .ok (s2, v) → objInv s2 := by
  intro props
  induction props with
  | nil =>
    intro env s s2 v hi h
    simp only [evalObjProps] at h
    cases h
    exact hi
  | cons ne rest ih =>
    intro env s s2 v hi h
    obtain ⟨name, e⟩ := ne
    simp only [evalObjProps] at h
    cases hev1 : ev e env s with
    | ok pr =>
      obtain ⟨s1, v1⟩ := pr
      rw [hev1] at h
      simp only [] at h
      exact ih env _ s2 v (objInv_storeEmplaceObj (hev e env s s1 v1 hi hev1)) h
    | thrown m => rw [hev1] at h; cases h
    | stuck => rw [hev1] at h; cases h

theorem evalArrElems_pres {ev} (hev : Pres ev) {id : Nat} :
    ∀ (elems : List Ast) (env : Nat) (s s2 : Store) (v : Value),
      objInv s → evalArrElems ev id elems env s = .ok (s2, v) → objInv s2 := by
  intro elems
  induction elems with
  | nil =>
    intro env s s2 v hi h
    simp only [evalArrElems] at h
    cases h
    exact hi
  | cons e rest ih =>
    intro env s s2 v hi h
    simp only [evalArrElems] at h
    cases hev1 : ev e env s with
    | ok pr =>
      obtain ⟨s1, v1⟩ := pr
      rw [hev1] at h
      simp only [] at h
      exact ih env _ s2 v
        (objInv_of_objs_eq (by rfl) (hev e env s s1 v1 hi hev1)) h
    | thrown m => rw [hev1] at h; cases h
    | stuck => rw [hev1] at h; cases h

theorem evalInterp_pres {ev} (hev : Pres ev) :
    ∀ (nodes : List Ast) (acc : String) (env : Nat) (s s2 : Store) (v : Value),
      objInv s → evalInterp ev nodes acc env s = .ok (s2, v) → objInv s2 := by
  intro nodes
  induction nodes with
  | nil =>
    intro acc env s s2 v hi h
    simp only [evalInterp] at h
    cases h
    exact hi
  | cons e rest ih =>
    intro acc env s s2 v hi h
    simp only [evalInterp] at h
    cases hev1 : ev e env s with
    | ok pr =>
      obtain ⟨s1, v1⟩ := pr
      rw [hev1] at h
      simp only [] at h
      have hi1 := hev e env s s1 v1 hi hev1
      cases hs : strVal (strFuel s1) s1 v1 with
      | some t =>
        rw [hs] at h
        simp only [] at h
        exact ih _ env s1 s2 v hi1 h
      | none => rw [hs] at h; cases h
    | thrown m => rw [hev1] at h; cases h
    | stuck => rw [hev1] at h; cases h

/-- Main invariant: evaluation at any fuel keeps all object property maps
sorted by key.  This is the engine behind the rendering-order claim: any
object the program can ever hold in a store arose sorted. -/
theorem eval_pres : ∀ f : Nat, Pres (eval f) := by
  intro f
  induction f with
  | zero =>
    intro a env s s2 v hi h
    cases h
  | succ f ih =>
    intro a env s s2 v hi h
    cases a
    case statements nodes =>
      simp only [eval] at h
      exact evalStatements_pres ih nodes env s s2 v hi h
    case whileAst c b =>
      simp only [eval] at h
      cases h1 : eval f c env s with
      | ok pr1 =>
        obtain ⟨s1, cv⟩ := pr1
        rw [h1] at h
        simp only [] at h
        have hi1 := ih c env s s1 cv hi h1
        cases hb : cv.to_bool with
        | ok tb =>
          rw [hb] at h
          cases tb
          · simp only [] at h
            cases h
            exact hi1
          · simp only [] at h
            cases h2 : eval f b env s1 with
            | ok pr2 =>
              obtain ⟨s3, v3⟩ := pr2
              rw [h2] at h
              simp only [] at h
              exact ih (.whileAst c b) env s3 s2 v (ih b env s1 s3 v3 hi1 h2) h
            | thrown m => rw [h2] at h; cases h
            | stuck => rw [h2] at h; cases h
        | error m => rw [hb] at h; cases h
      | thrown m => rw [h1] at h; cases h
      | stuck => rw [h1] at h; cases h
    case ifAst nodes =>
      simp only [eval] at h
      exact evalIf_pres ih nodes env s s2 v hi h
    case funcAst params body =>
      simp only [eval] at h
      cases h
      exact hi
    case callAst line col head sfx =>
      simp only [eval] at h
      cases h1 : eval f head env s with
      | ok pr =>
        obtain ⟨s1, v1⟩ := pr
        rw [h1] at h
        simp only [] at h
        exact evalSuffixes_pres ih sfx v1 env s1 s2 v (ih head env s s1 v1 hi h1) h
      | thrown m => rw [h1] at h; cases h
      | stuck => rw [h1] at h; cases h
    case blockAst inner =>
      simp only [eval] at h
      cases h
      exact hi
    case assignAst mutTok name expr =>
      simp only [eval] at h
      cases h1 : eval f expr env s with
      | ok pr =>
        obtain ⟨s1, v1⟩ := pr
        rw [h1] at h
        simp only [] at h
        have hi1 := ih expr env s s1 v1 hi h1
        cases hh : envHas (chainFuel s1) s1 env name with
        | none => rw [hh] at h; cases h
        | some b =>
          rw [hh] at h
          cases b
          · simp only [] at h
            cases h
            exact objInv_of_objs_eq (objs_envInit _ _ _ _ _) hi1
          · simp only [] at h
            cases ha : envAssign (chainFuel s1) s1 env name v1 with
            | ok s3 =>
              rw [ha] at h
              cases h
              exact objInv_of_objs_eq (objs_envAssign _ _ _ _ _ _ ha) hi1
            | thrown m => rw [ha] at h; cases h
            | stuck => rw [ha] at h; cases h
      | thrown m => rw [h1] at h; cases h
      | stuck => rw [h1] at h; cases h
    case orAst nodes =>
      simp only [eval] at h
      exact evalOrLoop_pres ih nodes env s s2 v hi h
    case andAst nodes =>
      simp only [eval] at h
      exact evalAndLoop_pres ih nodes env s s2 v hi h
    case condAst lhs opTok rhs =>
      simp only [eval] at h
      cases h1 : eval f lhs env s with
      | ok pr1 =>
        obtain ⟨s1, lv⟩ := pr1
        rw [h1] at h
        simp only [] at h
        have hi1 := ih lhs env s s1 lv hi h1
        cases h2 : eval f rhs env s1 with
        | ok pr2 =>
          obtain ⟨s3, rv⟩ := pr2
          rw [h2] at h
          simp only [] at h
          have hi3 := ih rhs env s1 s3 rv hi1 h2
          cases hc : condCompare opTok lv rv with
          | ok b => rw [hc] at h; cases h; exact hi3
          | error m => rw [hc] at h; cases h
        | thrown m => rw [h2] at h; cases h
        | stuck => rw [h2] at h; cases h
      | thrown m => rw [h1] at h; cases h
      | stuck => rw [h1] at h; cases h
    case plusAst e =>
      simp only [eval] at h
      exact ih e env s s2 v hi h
    case minusAst e =>
      simp only [eval] at h
      cases h1 : eval f e env s with
      | ok pr =>
        obtain ⟨s1, v1⟩ := pr
        rw [h1] at h
        simp only [] at h
        have hi1 := ih e env s s1 v1 hi h1
        cases htl : v1.to_long with
        | ok n => rw [htl] at h; cases h; exact hi1
        | error m => rw [htl] at h; cases h
      | thrown m => rw [h1] at h; cases h
      | stuck => rw [h1] at h; cases h
    case notAst e =>
      simp only [eval] at h
      cases h1 : eval f e env s with
      | ok pr =>
        obtain ⟨s1, v1⟩ := pr
        rw [h1] at h
        simp only [] at h
        have hi1 := ih e env s s1 v1 hi h1
        cases htb : v1.to_bool with
        | ok b => rw [htb] at h; cases h; exact hi1
        | error m => rw [htb] at h; cases h
      | thrown m => rw [h1] at h; cases h
      | stuck => rw [h1] at h; cases h
    case binAst first rest =>
      simp only [eval] at h
      cases h1 : eval f first env s with
      | ok pr =>
        obtain ⟨s1, v1⟩ := pr
        rw [h1] at h
        simp only [] at h
        have hi1 := ih first env s s1 v1 hi h1
        cases htl : v1.to_long with
        | ok n =>
          rw [htl] at h
          simp only [] at h
          exact evalBinLoop_pres ih rest n env s1 s2 v hi1 h
        | error m => rw [htl] at h; cases h
      | thrown m => rw [h1] at h; cases h
      | stuck => rw [h1] at h; cases h
    case identAst name =>
      simp only [eval] at h
      cases hg : envGet (chainFuel s) s env name with
      | ok v1 => rw [hg] at h; cases h; exact hi
      | thrown m => rw [hg] at h; cases h
      | stuck => rw [hg] at h; cases h
    case objAst props =>
      simp only [eval] at h
      exact evalObjProps_pres ih props env _ s2 v (objInv_allocObj hi) h
    case arrAst elems =>
      simp only [eval] at h
      refine evalArrElems_pres ih elems env _ s2 v ?_ h
      intro l hl
      exact hi l hl
    case undefAst => simp only [eval] at h; cases h; exact hi
    case boolAst tok => simp only [eval] at h; cases h; exact hi
    case numAst tok => simp only [eval] at h; cases h; exact hi
    case interpAst nodes =>
      simp only [eval] at h
      exact evalInterp_pres ih nodes "" env s s2 v hi h
    case tokenAst tok => simp only [eval] at h; cases h; exact hi
    case argsAst args => simp only [eval] at h; cases h
    case indexAst e => simp only [eval] at h; cases h
    case dotAst name => simp only [eval] at h; cases h

/-! ## The claims -/

/-- C1: the claim states that evaluating a `BLOCK` node evaluates the
contained `STATEMENTS` in the current environment and returns that value.
The dispatch case `Eval::eval_block` instead returns `Undefined` without
ever touching the inner `STATEMENTS` (first conjunct: for every block,
every environment, every store).  At the concrete failing input — a block
whose statements are the single expression `42` — the block evaluates to
`Undefined` although its statements evaluate to `Long 42` (second and
third conjuncts). -/
theorem block_dispatch_returns_undefined :
    (∀ (f : Nat) (inner : Ast) (env : Nat) (s : Store),
        eval (f+1) (Ast.blockAst inner) env s = .ok (s, .undefined))
    ∧ resultValue (eval 9 (Ast.blockAst (Ast.statements [Ast.numAst "42"])) 0 store0)
        = some Value.undefined
    ∧ resultValue (eval 9 (Ast.statements [Ast.numAst "42"]) 0 store0)
        = some (Value.long 42) :=
  ⟨fun _ _ _ _ => rfl, rfl, rfl⟩

/-- C2 (counterexample): the claim says a later duplicate property
overwrites the earlier one, so `{x: 1, x: 2}.x` should be `Long 2`.  The
source inserts with `std::map::emplace`, which keeps the earlier entry:
the program evaluates to `Long 1`, and `Long 1 ≠ Long 2`. -/
theorem object_duplicate_overwrite_cex :
    resultValue (eval 9 progDupObj 0 store0) = some (Value.long 1)
    ∧ Value.long 1 ≠ Value.long 2 := by
  refine ⟨rfl, ?_⟩
  intro h
  injection h with h2
  exact absurd h2 (by decide)

/-- C2 (amended): property expressions are evaluated in source order and
`emplace`d into a fresh object's map; when a property name recurs, the
first value is kept and later duplicates are silently ignored.  First
conjunct: `emplace` on a present key is a no-op; second: on an absent key
it makes the value retrievable; third: `{x: 1, x: 2}.x` is `Long 1`. -/
theorem object_duplicate_first_wins :
    (∀ (l : List (String × Value)) (n : String) (w v : Value),
        List.Pairwise pairKeyLt l → l.lookup n = some w → emplace l n v = l)
    ∧ (∀ (l : List (String × Value)) (n : String) (v : Value),
        l.lookup n = none → (emplace l n v).lookup n = some v)
    ∧ resultValue (eval 9 progDupObj 0 store0) = some (Value.long 1) :=
  ⟨fun _ _ _ _ hp h => emplace_lookup_present hp h,
   fun _ _ _ h => emplace_lookup_absent h,
   rfl⟩

/-- Witness for C2: concrete instances of both `emplace` laws. -/
theorem object_duplicate_first_wins_witness :
    emplace [("x", Value.long 1)] "x" (Value.long 2) = [("x", Value.long 1)]
    ∧ (emplace [] "x" (Value.long 9)).lookup "x" = some (Value.long 9) :=
  ⟨object_duplicate_first_wins.1 [("x", Value.long 1)] "x" (Value.long 1)
      (Value.long 2) (by simp [pairKeyLt]) rfl,
   object_duplicate_first_wins.2.1 [] "x" (Value.long 9) rfl⟩

/-- C3 (counterexample): the claim says comparing operands of different
kinds raises an error; but `true == 1` — a `Bool` against a `Long` —
evaluates without error to `Bool true`, because `Value::operator==`
dispatches on the left kind only and coerces the right operand with
`to_bool`. -/
theorem comparison_mixed_kinds_cex :
    resultValue (eval 3 progMixedCmp 0 store0) = some (Value.bool true)
    ∧ valueEq (Value.bool true) (Value.long 1) = .ok true :=
  ⟨rfl, rfl⟩

/-- C3 (amended): each comparison dispatches on the LEFT operand's kind.
A left `Object`/`Array`/`Function` throws `invalid internal condition.`;
a left `Undefined` equals exactly `Undefined` and makes every inequality
false, whatever the right operand; a left `Bool`/`Long`/`String` coerces
the right operand via `to_bool`/`to_long`/`to_string` — which throws
`type error.` exactly on non-coercible operands — and compares naturally
(so `Bool`/`Long` mixes succeed).  `!=` is the negation of `==`. -/
theorem comparison_dispatch_on_left :
    (∀ r, valueEq .undefined r = .ok (isUndefined r))
    ∧ (∀ r, valueLe .undefined r = .ok false ∧ valueLt .undefined r = .ok false
        ∧ valueGe .undefined r = .ok false ∧ valueGt .undefined r = .ok false)
    ∧ (∀ b r rb, Value.to_bool r = .ok rb → valueEq (.bool b) r = .ok (b == rb))
    ∧ (∀ b r m, Value.to_bool r = .error m → valueEq (.bool b) r = .error m)
    ∧ (∀ n r rn, Value.to_long r = .ok rn → valueEq (.long n) r = .ok (n == rn))
    ∧ (∀ n r m, Value.to_long r = .error m → valueEq (.long n) r = .error m)
    ∧ (∀ t r rt, Value.to_string r = .ok rt → valueEq (.str t) r = .ok (t == rt))
    ∧ (∀ t r m, Value.to_string r = .error m → valueEq (.str t) r = .error m)
    ∧ (∀ n rn, valueLt (.long n) (.long rn) = .ok (decide (n < rn))
        ∧ valueLe (.long n) (.long rn) = .ok (decide (n ≤ rn))
        ∧ valueGe (.long n) (.long rn) = .ok (decide (rn ≤ n))
        ∧ valueGt (.long n) (.long rn) = .ok (decide (rn < n)))
    ∧ (∀ t rt, valueLt (.str t) (.str rt) = .ok (strLtB t rt))
    ∧ (∀ l r b, valueEq l r = .ok b → valueNe l r = .ok (!b))
    ∧ (∀ id r, valueEq (.object id) r = .error "invalid internal condition."
        ∧ valueLt (.object id) r = .error "invalid internal condition.")
    ∧ (∀ id r, valueEq (.array id) r = .error "invalid internal condition."
        ∧ valueLt (.array id) r = .error "invalid internal condition.")
    ∧ (∀ ps fb r, valueEq (.func ps fb) r = .error "invalid internal condition."
        ∧ valueLt (.func ps fb) r = .error "invalid internal condition.") := by
  refine ⟨fun r => rfl, fun r => ⟨rfl, rfl, rfl, rfl⟩, ?_, ?_, ?_, ?_, ?_, ?_,
    fun n rn => ⟨rfl, rfl, rfl, rfl⟩, fun t rt => rfl, ?_,
    fun id r => ⟨rfl, rfl⟩, fun id r => ⟨rfl, rfl⟩, fun ps fb r => ⟨rfl, rfl⟩⟩
  · intro b r rb h; simp [valueEq, h, Except.map]
  · intro b r m h; simp [valueEq, h, Except.map]
  · intro n r rn h; simp [valueEq, h, Except.map]
  · intro n r m h; simp [valueEq, h, Except.map]
  · intro t r rt h; simp [valueEq, h, Except.map]
  · intro t r m h; simp [valueEq, h, Except.map]
  · intro l r b h; simp [valueNe, h, Except.map]

/-- Witness for C3 (amended): concrete instances — `Bool` against `Long`
compares via coercion, `Long` against `String` throws a type error, a
left `Object` throws the internal-condition error. -/
theorem comparison_dispatch_on_left_witness :
    valueEq (.bool true) (.long 3) = .ok (true == ((3 : Int) != 0))
    ∧ valueEq (.long 5) (.str "a") = .error "type error."
    ∧ valueLt (.long 2) (.long 7) = .ok (decide ((2 : Int) < 7)) :=
  ⟨comparison_dispatch_on_left.2.2.1 true (.long 3) ((3 : Int) != 0) rfl,
   comparison_dispatch_on_left.2.2.2.2.2.1 5 (.str "a") "type error." rfl,
   (comparison_dispatch_on_left.2.2.2.2.2.2.2.2.1 2 7).1⟩

/-- The parameter-binding loop never looks at arguments beyond the
parameter count: appending extra argument expressions changes nothing. -/
theorem bindArgs_append {ev} {callEnv : Nat} :
    ∀ (params : List Param) (args extra : List Ast) (env : Nat) (s : Store),
      params.length ≤ args.length →
      bindArgs ev callEnv params (args ++ extra) env s
        = bindArgs ev callEnv params args env s := by
  intro params
  induction params with
  | nil => intro args extra env s h; rfl
  | cons p ps ih =>
    intro args extra env s h
    cases args with
    | nil => simp at h
    | cons a rest =>
      simp only [List.cons_append, bindArgs]
      cases hev1 : ev a env s with
      | ok pr =>
        obtain ⟨s1, v1⟩ := pr
        simp only []
        exact ih rest extra env _ (Nat.le_of_succ_le_succ h)
      | thrown m => rfl
      | stuck => rfl

/-- C4 (amended): the `ARGUMENTS` suffix of `eval_call` fails with
`arguments error...` exactly when fewer arguments than parameters are
supplied (first conjunct); when enough are supplied, the call behaves
identically whatever extra argument expressions are appended — they are
never evaluated (second conjunct, quantified over every evaluator `ev`,
every extra list, and every suffix continuation). -/
theorem call_arity_policy :
    (∀ ev (line col : Nat) (params : List Param) (fb : FnBody) (args rest : List Ast)
        (env : Nat) (s : Store), args.length < params.length →
        evalSuffixes ev line col (.func params fb) (.argsAst args :: rest) env s
          = .thrown "arguments error...")
    ∧ (∀ ev (line col : Nat) (params : List Param) (fb : FnBody)
        (args extra rest : List Ast) (env : Nat) (s : Store),
        params.length ≤ args.length →
        evalSuffixes ev line col (.func params fb) (.argsAst (args ++ extra) :: rest) env s
          = evalSuffixes ev line col (.func params fb) (.argsAst args :: rest) env s) := by
  constructor
  · intro ev line col params fb args rest env s h
    simp only [evalSuffixes, Value.to_function]
    rw [if_neg (Nat.not_le.mpr h)]
  · intro ev line col params fb args extra rest env s h
    have h2 : params.length ≤ (args ++ extra).length := by
      rw [List.length_append]; omega
    simp only [evalSuffixes, Value.to_function]
    rw [if_pos h, if_pos h2, bindArgs_append params args extra env _ h]

/-- C4 (counterexample): the claim says every supplied argument expression
is evaluated in the caller's environment.  Calling a zero-parameter
function with the extra argument `nosuch` succeeds (first conjunct), yet
evaluating that argument expression in the same environment throws
`undefined variable 'nosuch'...` (second conjunct) — so the extra
argument was never evaluated. -/
theorem call_extra_arg_not_evaluated_cex :
    resultValue (eval 20 progExtraArg 0 store0) = some Value.undefined
    ∧ errMsg (eval 9 (Ast.identAst "nosuch") 0 store0)
        = some ("undefined variable \x27nosuch\x27...") :=
  ⟨rfl, rfl⟩

/-- Witness for C4: a one-parameter function called with no arguments
fails with the arguments error; a zero-parameter function ignores one
appended extra argument. -/
theorem call_arity_policy_witness :
    evalSuffixes (eval 3) 1 1 (.func [⟨"p", false⟩] (.native .puts))
        [.argsAst []] 0 store0 = .thrown "arguments error..."
    ∧ evalSuffixes (eval 3) 1 1 (.func [] (.native .puts))
        [.argsAst ([] ++ [Ast.identAst "nosuch"])] 0 store0
      = evalSuffixes (eval 3) 1 1 (.func [] (.native .puts)) [.argsAst []] 0 store0 :=
  ⟨call_arity_policy.1 (eval 3) 1 1 [⟨"p", false⟩] (.native .puts) [] [] 0 store0
      (by decide),
   call_arity_policy.2 (eval 3) 1 1 [] (.native .puts) [] [Ast.identAst "nosuch"] [] 0
      store0 (by decide)⟩

/-- C5: the `INDEX` suffix coerces the index to `Long`; in range it
replaces the current fold value by the element (second conjunct), out of
range — negative or past the end — it silently leaves the current value
unchanged and the fold continues (first conjunct).  Concretely,
`a = [10, 20, 30]; a[999]` yields the array value `a` itself (third and
fourth conjuncts: both programs end in the same array handle). -/
theorem index_suffix_semantics :
    (∀ ev (line col id : Nat) (e : Ast) (rest : List Ast) (env : Nat)
        (s s1 : Store) (iv : Value) (i : Int) (vals : List Value),
        ev e env s = .ok (s1, iv) → Value.to_long iv = .ok i →
        s1.arrs.get? id = some vals →
        (i < 0 ∨ (vals.length : Int) ≤ i) →
        evalSuffixes ev line col (.array id) (.indexAst e :: rest) env s
          = evalSuffixes ev line col (.array id) rest env s1)
    ∧ (∀ ev (line col id : Nat) (e : Ast) (rest : List Ast) (env : Nat)
        (s s1 : Store) (iv : Value) (i : Int) (vals : List Value),
        ev e env s = .ok (s1, iv) → Value.to_long iv = .ok i →
        s1.arrs.get? id = some vals →
        0 ≤ i → i < (vals.length : Int) →
        evalSuffixes ev line col (.array id) (.indexAst e :: rest) env s
          = evalSuffixes ev line col (vals.getD i.toNat (.array id)) rest env s1)
    ∧ resultValue (eval 20 progIndexOut 0 store0) = some (Value.array 0)
    ∧ resultValue (eval 20 progArrayItself 0 store0) = some (Value.array 0) := by
  refine ⟨?_, ?_, rfl, rfl⟩
  · intro ev line col id e rest env s s1 iv i vals hev htl harr hout
    simp only [evalSuffixes, Value.to_array, hev, htl, harr, Option.getD_some]
    rw [if_neg]
    intro hc
    rcases hout with hneg | hbig
    · exact absurd hc.1 (not_le.mpr hneg)
    · exact absurd hc.2 (not_lt.mpr hbig)
  · intro ev line col id e rest env s s1 iv i vals hev htl harr h0 hlen
    simp only [evalSuffixes, Value.to_array, hev, htl, harr, Option.getD_some]
    rw [if_pos ⟨h0, hlen⟩]

/-- Witness for C5: on the store holding `[10, 20, 30]`, index `999` is a
no-op (the array value survives) and index `1` selects `20`. -/
theorem index_suffix_semantics_witness :
    evalSuffixes (eval 3) 1 1 (.array 0) [.indexAst (.numAst "999")] 0
        ⟨[⟨[], none⟩], [], [[.long 10, .long 20, .long 30]]⟩
      = evalSuffixes (eval 3) 1 1 (.array 0) [] 0
        ⟨[⟨[], none⟩], [], [[.long 10, .long 20, .long 30]]⟩
    ∧ evalSuffixes (eval 3) 1 1 (.array 0) [.indexAst (.numAst "1")] 0
        ⟨[⟨[], none⟩], [], [[.long 10, .long 20, .long 30]]⟩
      = evalSuffixes (eval 3) 1 1
          ([Value.long 10, Value.long 20, Value.long 30].getD (Int.toNat 1) (.array 0)) [] 0
        ⟨[⟨[], none⟩], [], [[.long 10, .long 20, .long 30]]⟩ :=
  ⟨index_suffix_semantics.1 (eval 3) 1 1 0 (.numAst "999") [] 0 _ _ (.long 999) 999
      [.long 10, .long 20, .long 30] rfl rfl rfl (by right; decide),
   index_suffix_semantics.2.1 (eval 3) 1 1 0 (.numAst "1") [] 0 _ _ (.long 1) 1
      [.long 10, .long 20, .long 30] rfl rfl rfl (by decide) (by decide)⟩

/-! ## Environment-chain lemmas (claims C6 and C10) -/

theorem chainFind_envHas :
    ∀ (f : Nat) (s : Store) (id : Nat) (name : String) (x : Nat × Sym),
      chainFind f s id name = some x → envHas f s id name = some true := by
  intro f
  induction f with
  | zero => intro s id name x h; cases h
  | succ f ih =>
    intro s id name x h
    simp only [chainFind] at h
    simp only [envHas]
    cases hg : s.envs.get? id with
    | none => rw [hg] at h; cases h
    | some fr =>
      rw [hg] at h
      simp only [] at h
      simp only []
      cases hl : fr.dic.lookup name with
      | some sym => simp [hl]
      | none =>
        rw [hl] at h
        simp only [] at h
        cases ho : fr.outer with
        | none => rw [ho] at h; cases h
        | some oid =>
          rw [ho] at h
          simp only [hl, ho, Option.isSome_none, Bool.false_eq_true, if_false]
          exact ih s oid name x h

theorem chainFind_envGet :
    ∀ (f : Nat) (s : Store) (id : Nat) (name : String) (j : Nat) (sym : Sym),
      chainFind f s id name = some (j, sym) → envGet f s id name = .ok sym.val := by
  intro f
  induction f with
  | zero => intro s id name j sym h; cases h
  | succ f ih =>
    intro s id name j sym h
    simp only [chainFind] at h
    simp only [envGet]
    cases hg : s.envs.get? id with
    | none => rw [hg] at h; cases h
    | some fr =>
      rw [hg] at h
      simp only [] at h
      simp only []
      cases hl : fr.dic.lookup name with
      | some sym0 =>
        rw [hl] at h
        simp only [] at h
        injection h with h
        injection h with h1 h2
        subst h2
        rfl
      | none =>
        rw [hl] at h
        simp only [] at h
        cases ho : fr.outer with
        | none => rw [ho] at h; cases h
        | some oid =>
          rw [ho] at h
          exact ih s oid name j sym h

theorem chainFind_envAssign_immutable :
    ∀ (f : Nat) (s : Store) (id : Nat) (name : String) (v : Value) (j : Nat) (sym : Sym),
      chainFind f s id name = some (j, sym) → sym.mutFlag = false →
      envAssign f s id name v
        = .thrown ("immutable variable \x27" ++ name ++ "\x27...") := by
  intro f
  induction f with
  | zero => intro s id name v j sym h _; cases h
  | succ f ih =>
    intro s id name v j sym h hm
    simp only [chainFind] at h
    simp only [envAssign]
    cases hg : s.envs.get? id with
    | none => rw [hg] at h; cases h
    | some fr =>
      rw [hg] at h
      simp only [] at h
      simp only []
      cases hl : fr.dic.lookup name with
      | some sym0 =>
        rw [hl] at h
        simp only [] at h
        injection h with h
        injection h with h1 h2
        subst h2
        simp [hm]
      | none =>
        rw [hl] at h
        simp only [] at h
        cases ho : fr.outer with
        | none => rw [ho] at h; cases h
        | some oid =>
          rw [ho] at h
          simp only [] at h
          simp only []
          rw [chainFind_envHas f s oid name (j, sym) h]
          simp only []
          exact ih s oid name v j sym h hm

theorem chainFind_envAssign_mutable :
    ∀ (f : Nat) (s : Store) (id : Nat) (name : String) (v : Value) (j : Nat) (sym : Sym),
      chainFind f s id name = some (j, sym) → sym.mutFlag = true →
      envAssign f s id name v = .ok (storeAssignAt s j name v) := by
  intro f
  induction f with
  | zero => intro s id name v j sym h _; cases h
  | succ f ih =>
    intro s id name v j sym h hm
    simp only [chainFind] at h
    simp only [envAssign]
    cases hg : s.envs.get? id with
    | none => rw [hg] at h; cases h
    | some fr =>
      rw [hg] at h
      simp only [] at h
      simp only []
      cases hl : fr.dic.lookup name with
      | some sym0 =>
        rw [hl] at h
        simp only [] at h
        injection h with h
        injection h with h1 h2
        subst h1
        subst h2
        simp only [hm, if_true]
        unfold storeAssignAt
        rw [hg]
      | none =>
        rw [hl] at h
        simp only [] at h
        cases ho : fr.outer with
        | none => rw [ho] at h; cases h
        | some oid =>
          rw [ho] at h
          simp only [] at h
          simp only []
          rw [chainFind_envHas f s oid name (j, sym) h]
          simp only []
          exact ih s oid name v j sym h hm

/-- C6: an immutable innermost binding rejects assignment with the
`immutable variable` error and — the exception aborting the assignment —
its value stays untouched; a mutable innermost binding, even one sitting
in an outer frame `j`, is updated in place at that frame; lookup always
returns the innermost binding's value.  Concretely,
`mut x = 1; x = 2; x` is `Long 2` and `x = 1; x = 2; x` fails with
`immutable variable 'x'...`. -/
theorem environment_binding_semantics :
    (∀ (f : Nat) (s : Store) (id : Nat) (name : String) (j : Nat) (sym : Sym),
        chainFind f s id name = some (j, sym) → envGet f s id name = .ok sym.val)
    ∧ (∀ (f : Nat) (s : Store) (id : Nat) (name : String) (v : Value) (j : Nat) (sym : Sym),
        chainFind f s id name = some (j, sym) → sym.mutFlag = false →
        envAssign f s id name v
          = .thrown ("immutable variable \x27" ++ name ++ "\x27..."))
    ∧ (∀ (f : Nat) (s : Store) (id : Nat) (name : String) (v : Value) (j : Nat) (sym : Sym),
        chainFind f s id name = some (j, sym) → sym.mutFlag = true →
        envAssign f s id name v = .ok (storeAssignAt s j name v))
    ∧ resultValue (eval 9 progMutAssign 0 store0) = some (Value.long 2)
    ∧ errMsg (eval 9 progImmutAssign 0 store0)
        = some ("immutable variable \x27x\x27...") :=
  ⟨chainFind_envGet, chainFind_envAssign_immutable, chainFind_envAssign_mutable,
   rfl, rfl⟩

/-- Witness for C6: on concrete chains — lookup through two frames returns
the innermost (shadowing) binding; assigning an immutable binding throws;
assigning from an inner frame updates the mutable binding in the outer
frame 0. -/
theorem environment_binding_semantics_witness :
    envGet 3 ⟨[⟨[("z", ⟨.long 1, true⟩)], none⟩, ⟨[("z", ⟨.long 2, true⟩)], some 0⟩],
        [], []⟩ 1 "z" = .ok (Value.long 2)
    ∧ envAssign 3 ⟨[⟨[("x", ⟨.long 1, false⟩)], none⟩], [], []⟩ 0 "x" (.long 5)
        = .thrown ("immutable variable \x27x\x27...")
    ∧ envAssign 3 ⟨[⟨[("y", ⟨.long 1, true⟩)], none⟩, ⟨[], some 0⟩], [], []⟩ 1 "y"
        (.long 5)
      = .ok (storeAssignAt
          ⟨[⟨[("y", ⟨.long 1, true⟩)], none⟩, ⟨[], some 0⟩], [], []⟩ 0 "y" (.long 5)) :=
  ⟨environment_binding_semantics.1 3 _ 1 "z" 1 ⟨.long 2, true⟩ rfl,
   environment_binding_semantics.2.1 3 _ 0 "x" (.long 5) 0 ⟨.long 1, false⟩ rfl rfl,
   environment_binding_semantics.2.2.1 3 _ 1 "y" (.long 5) 0 ⟨.long 1, true⟩ rfl rfl⟩

theorem immutMsg_ne_internal (name : String) :
    ("immutable variable \x27" ++ name ++ "\x27...") ≠ "invalid internal condition." := by
  intro h
  have h2 := congrArg (fun t : String => t.data[1]?) h
  simp only [String.data_append] at h2
  rw [List.getElem?_append_left (by simp [List.length_append]),
      List.getElem?_append_left (by decide)] at h2
  exact absurd h2 (by decide)

/-- C10: whenever `Environment::has` holds for the name — the guard under
which `eval_assignment` takes the assign path — `Environment::assign`
either succeeds or throws the `immutable variable` runtime error; its
final `invalid internal condition.` logic-error branch is unreachable. -/
theorem assign_internal_branch_unreachable :
    ∀ (f : Nat) (s : Store) (id : Nat) (name : String) (v : Value),
      envHas f s id name = some true →
      envAssign f s id name v ≠ .thrown "invalid internal condition." := by
  intro f
  induction f with
  | zero => intro s id name v hh; cases hh
  | succ f ih =>
    intro s id name v hh
    simp only [envHas] at hh
    simp only [envAssign]
    cases hg : s.envs.get? id with
    | none => rw [hg] at hh; cases hh
    | some fr =>
      rw [hg] at hh
      simp only [] at hh
      simp only []
      cases hl : fr.dic.lookup name with
      | some sym =>
        simp only [hl]
        by_cases hm : sym.mutFlag = true
        · rw [if_pos hm]
          intro hc
          cases hc
        · rw [if_neg hm]
          intro hc
          injection hc with hc
          exact immutMsg_ne_internal name hc
      | none =>
        rw [hl] at hh
        simp only [Option.isSome_none, Bool.false_eq_true, if_false] at hh
        simp only [hl]
        cases ho : fr.outer with
        | none => rw [ho] at hh; cases hh
        | some oid =>
          rw [ho] at hh
          simp only [] at hh
          simp only []
          rw [hh]
          simp only []
          exact ih s oid name v hh

/-- Witness for C10: on a store whose frame 0 binds `x`, `has` holds and
`assign` does not produce the internal error. -/
theorem assign_internal_branch_unreachable_witness :
    envHas 2 ⟨[⟨[("x", ⟨.long 1, true⟩)], none⟩], [], []⟩ 0 "x" = some true
    ∧ envAssign 2 ⟨[⟨[("x", ⟨.long 1, true⟩)], none⟩], [], []⟩ 0 "x" (.long 7)
        ≠ .thrown "invalid internal condition." :=
  ⟨rfl, assign_internal_branch_unreachable 2 _ 0 "x" (.long 7) rfl⟩

/-- C7: `LOGICAL_OR` returns the first operand whose `to_bool` is truthy —
the result (value and store) is independent of every later operand, which
is therefore not evaluated (first conjunct, for arbitrary tails); when the
first operand is falsy the last operand's outcome is returned, truthy or
falsy (second conjunct).  `LOGICAL_AND` is the mirror image (third and
fourth conjuncts).  Concretely `true || (1/0)` is `true` and
`false && (1/0)` is `false` even though `1/0` has no defined value. -/
theorem logical_shortcircuit :
    (∀ (f : Nat) (a : Ast) (rest : List Ast) (env : Nat) (s s1 : Store) (v : Value),
        eval f a env s = .ok (s1, v) → Value.to_bool v = .ok true →
        eval (f+1) (.orAst (a :: rest)) env s = .ok (s1, v))
    ∧ (∀ (f : Nat) (a b : Ast) (env : Nat) (s s1 s2 : Store) (v w : Value) (wb : Bool),
        eval f a env s = .ok (s1, v) → Value.to_bool v = .ok false →
        eval f b env s1 = .ok (s2, w) → Value.to_bool w = .ok wb →
        eval (f+1) (.orAst [a, b]) env s = .ok (s2, w))
    ∧ (∀ (f : Nat) (a : Ast) (rest : List Ast) (env : Nat) (s s1 : Store) (v : Value),
        eval f a env s = .ok (s1, v) → Value.to_bool v = .ok false →
        eval (f+1) (.andAst (a :: rest)) env s = .ok (s1, v))
    ∧ (∀ (f : Nat) (a b : Ast) (env : Nat) (s s1 s2 : Store) (v w : Value) (wb : Bool),
        eval f a env s = .ok (s1, v) → Value.to_bool v = .ok true →
        eval f b env s1 = .ok (s2, w) → Value.to_bool w = .ok wb →
        eval (f+1) (.andAst [a, b]) env s = .ok (s2, w))
    ∧ resultValue (eval 9 progOrShort 0 store0) = some (Value.bool true)
    ∧ resultValue (eval 9 progAndShort 0 store0) = some (Value.bool false) := by
  refine ⟨?_, ?_, ?_, ?_, rfl, rfl⟩
  · intro f a rest env s s1 v h1 h2
    simp only [eval, evalOrLoop, h1, h2]
  · intro f a b env s s1 s2 v w wb h1 h2 h3 h4
    cases wb <;> simp only [eval, evalOrLoop, h1, h2, h3, h4]
  · intro f a rest env s s1 v h1 h2
    simp only [eval, evalAndLoop, h1, h2]
  · intro f a b env s s1 s2 v w wb h1 h2 h3 h4
    cases wb <;> simp only [eval, evalAndLoop, h1, h2, h3, h4]

/-- Witness for C7: concrete instances of all four general conjuncts. -/
theorem logical_shortcircuit_witness :
    eval 2 (.orAst [Ast.boolAst "true", .binAst (.numAst "1") [("/", .numAst "0")]]) 0 store0
      = .ok (store0, .bool true)
    ∧ eval 2 (.orAst [Ast.boolAst "false", Ast.boolAst "true"]) 0 store0
      = .ok (store0, .bool true)
    ∧ eval 2 (.andAst [Ast.boolAst "false", .binAst (.numAst "1") [("/", .numAst "0")]]) 0 store0
      = .ok (store0, .bool false)
    ∧ eval 2 (.andAst [Ast.boolAst "true", Ast.boolAst "false"]) 0 store0
      = .ok (store0, .bool false) :=
  ⟨logical_shortcircuit.1 1 (.boolAst "true") [.binAst (.numAst "1") [("/", .numAst "0")]]
      0 store0 store0 (.bool true) rfl rfl,
   logical_shortcircuit.2.1 1 (.boolAst "false") (.boolAst "true") 0 store0 store0 store0
      (.bool false) (.bool true) true rfl rfl rfl rfl,
   logical_shortcircuit.2.2.1 1 (.boolAst "false") [.binAst (.numAst "1") [("/", .numAst "0")]]
      0 store0 store0 (.bool false) rfl rfl,
   logical_shortcircuit.2.2.2.1 1 (.boolAst "true") (.boolAst "false") 0 store0 store0 store0
      (.bool true) (.bool false) false rfl rfl rfl rfl⟩

/-- C8: the prelude `assert` returns `Undefined` when its argument is
truthy (first conjunct); on a falsy argument it throws
`assert failed at L:C.` where `L` and `C` are read from the `__LINE__`
and `__COLUMN__` bindings of the call frame (second conjunct) — bindings
the `ARGUMENTS` branch of `eval_call` initialises from the `CALL` node's
position at every call.  Concretely, under the prelude store,
`assert(1 == 2)` fails with `assert failed at 1:1.` and `assert(1 == 1)`
returns `Undefined`. -/
theorem prelude_assert_behavior :
    (∀ (callEnv : Nat) (s : Store) (v : Value),
        envGet (chainFuel s) s callEnv "arg" = .ok v → Value.to_bool v = .ok true →
        nativeCall .assert callEnv s = .ok (s, .undefined))
    ∧ (∀ (callEnv : Nat) (s : Store) (v lv cv : Value) (L C : Int),
        envGet (chainFuel s) s callEnv "arg" = .ok v → Value.to_bool v = .ok false →
        envGet (chainFuel s) s callEnv "__LINE__" = .ok lv → Value.to_long lv = .ok L →
        envGet (chainFuel s) s callEnv "__COLUMN__" = .ok cv → Value.to_long cv = .ok C →
        nativeCall .assert callEnv s
          = .thrown ("assert failed at " ++ toString L ++ ":" ++ toString C ++ "."))
    ∧ errMsg (eval 9 progAssertFail 0 preludeStore) = some "assert failed at 1:1."
    ∧ resultValue (eval 9 progAssertPass 0 preludeStore) = some Value.undefined := by
  refine ⟨?_, ?_, rfl, rfl⟩
  · intro callEnv s v h1 h2
    simp only [nativeCall, h1, h2]
  · intro callEnv s v lv cv L C h1 h2 h3 h4 h5 h6
    simp only [nativeCall, h1, h2, h3, h4, h5, h6]

/-- Witness for C8: concrete call frames for both general conjuncts —
`arg = true` returns `Undefined`; `arg = false` with `__LINE__ = 4` and
`__COLUMN__ = 7` throws `assert failed at 4:7.`. -/
theorem prelude_assert_behavior_witness :
    nativeCall .assert 0 ⟨[⟨[("arg", ⟨.bool true, true⟩)], none⟩], [], []⟩
      = .ok (⟨[⟨[("arg", ⟨.bool true, true⟩)], none⟩], [], []⟩, .undefined)
    ∧ nativeCall .assert 0
        ⟨[⟨[("arg", ⟨.bool false, true⟩), ("__LINE__", ⟨.long 4, false⟩),
            ("__COLUMN__", ⟨.long 7, false⟩)], none⟩], [], []⟩
      = .thrown ("assert failed at " ++ toString (4 : Int) ++ ":"
          ++ toString (7 : Int) ++ ".") :=
  ⟨prelude_assert_behavior.1 0 _ (.bool true) rfl rfl,
   prelude_assert_behavior.2.1 0 _ (.bool false) (.long 4) (.long 7) 4 7
      rfl rfl rfl rfl rfl rfl⟩

/-- C9: any object an evaluation produces has its property map strictly
sorted by the lexicographic order on names — whatever the insertion order
of the `OBJECT` literal was — and `str` renders exactly that map in
iteration order (`"k": str(v)` pairs joined by `", "` inside braces).
First conjunct: the stored entries are pairwise key-sorted; second: so is
the list of rendered names; third: the `str_object` rendering follows the
entries in stored order. -/
theorem object_render_sorted :
    ∀ (f : Nat) (props : List (String × Ast)) (env : Nat) (s s2 : Store)
      (v : Value) (id : Nat) (entries : List (String × Value)) (g : Nat),
      objInv s → eval f (.objAst props) env s = .ok (s2, v) →
      v = .object id → s2.objs.get? id = some entries →
      List.Pairwise pairKeyLt entries
      ∧ List.Pairwise (fun a b : String => strLtB a b = true) (entries.map Prod.fst)
      ∧ strVal (g+1) s2 (.object id)
          = (strJoinProps (strVal g s2) entries).map
              (fun body => "\x7b" ++ body ++ "\x7d") := by
  intro f props env s s2 v id entries g hi hev hv hget
  have hi2 : objInv s2 := eval_pres f _ env s s2 v hi hev
  have hp : List.Pairwise pairKeyLt entries := hi2 entries (List.get?_mem hget)
  refine ⟨hp, ?_, ?_⟩
  · exact List.Pairwise.map Prod.fst (fun a b hab => hab) hp
  · have hget2 : s2.objs[id]? = some entries := by
      rw [← List.get?_eq_getElem?]; exact hget
    simp [strVal, hget2]

/-- Witness for C9: the literal `{b: 1, a: 2}` — inserted out of order —
is stored as `[(a, 2), (b, 1)]`, whose names are sorted and which `str`
renders in that order. -/
theorem object_render_sorted_witness :
    List.Pairwise pairKeyLt [("a", Value.long 2), ("b", Value.long 1)]
    ∧ List.Pairwise (fun a b : String => strLtB a b = true)
        ([("a", Value.long 2), ("b", Value.long 1)].map Prod.fst)
    ∧ strVal 3 ⟨[⟨[], none⟩], [[("a", Value.long 2), ("b", Value.long 1)]], []⟩ (.object 0)
        = (strJoinProps
            (strVal 2 ⟨[⟨[], none⟩], [[("a", Value.long 2), ("b", Value.long 1)]], []⟩)
            [("a", Value.long 2), ("b", Value.long 1)]).map
            (fun body => "\x7b" ++ body ++ "\x7d") :=
  object_render_sorted 9 [("b", .numAst "1"), ("a", .numAst "2")] 0 store0
    ⟨[⟨[], none⟩], [[("a", Value.long 2), ("b", Value.long 1)]], []⟩ (.object 0) 0
    [("a", Value.long 2), ("b", Value.long 1)] 2
    (by intro l hl; simp [store0] at hl) rfl rfl rfl

end Culebra
